import Mathlib

/-!
Verification development for the in-memory transactional storage engine of a
property-graph database (MVCC delta chains, unique constraints, WAL emission,
garbage collection).  The definitions below are a shallow embedding of the
functions in `src/src/storage/v2/edge_accessor.cpp`; pointers become `Gid`
keys into explicit stores, the lock-free delta chain of an object becomes a
list with the newest delta at its head, and the shared per-transaction
timestamp cell becomes a plain `Nat` stored in every delta of the
transaction.  Transaction ids and commit timestamps share one number line;
following the engine's convention, transaction ids start at `2^63` and commit
timestamps stay below it.
-/

namespace MemStorage

abbrev Gid := Nat
abbrev LabelId := Nat
abbrev PropertyId := Nat
abbrev EdgeTypeId := Nat

/-- Property values as stored in a property map.  `nullv` is the C++
`PropertyValue()` default: it is what a lookup of an absent key returns, and
setting a key to it removes the key. -/
inductive PropertyValue
  | nullv
  | intv (z : Int)
  | strv (s : String)
deriving DecidableEq, Repr

/-- Property map of an object, kept as an association list sorted by key with
no `nullv` values stored (the canonical form the C++ `std::map` /
`PropertyStore` maintain). -/
abbrev Properties := List (PropertyId × PropertyValue)

/-- Lookup of a property; absent keys read as `nullv`, as in the C++ property
stores. -/
def getProp : Properties → PropertyId → PropertyValue
  | [], _ => .nullv
  | (k', v') :: rest, k => if k = k' then v' else getProp rest k

/-- Presence test for a key, the `properties.find(property) != end()` check of
the C++ `std::map`. -/
def hasKey (ps : Properties) (k : PropertyId) : Bool :=
  ps.any (fun p => p.1 == k)

/-- Write to a property map: overwrite an existing key, erase it when the new
value is `nullv`, and otherwise insert in key order.  This is the combined
effect of the `find` / `erase` / `emplace` branches of the C++ code. -/
def setProp : Properties → PropertyId → PropertyValue → Properties
  | [], k, v => if v = .nullv then [] else [(k, v)]
  | (k', v') :: rest, k, v =>
    if k < k' then (if v = .nullv then (k', v') :: rest else (k, v) :: (k', v') :: rest)
    else if k = k' then (if v = .nullv then rest else (k, v) :: rest)
    else (k', v') :: setProp rest k v

/-- Well-formedness of the canonical property-map representation: keys
strictly increasing, no stored `nullv`. -/
def PropsSorted (ps : Properties) : Prop :=
  List.Pairwise (fun a b : PropertyId × PropertyValue => a.1 < b.1) ps

def PropsWF (ps : Properties) : Prop :=
  PropsSorted ps ∧ ∀ p ∈ ps, p.2 ≠ PropertyValue.nullv

instance (ps : Properties) : Decidable (PropsSorted ps) :=
  inferInstanceAs (Decidable (List.Pairwise _ ps))

instance (ps : Properties) : Decidable (PropsWF ps) :=
  inferInstanceAs (Decidable (PropsSorted ps ∧ ∀ p ∈ ps, p.2 ≠ PropertyValue.nullv))

/-- Modelled from the spec: `ExtractPropertyValues(keys)` of the property
store "returns Some(vec) only when all keys are present" (§4.2); the vector
holds the values of `keys` in order.  The property-store source itself is not
part of the repository snapshot. -/
def ExtractPropertyValues (ps : Properties) (keys : List PropertyId) :
    Option (List PropertyValue) :=
  if keys.all (fun k => hasKey ps k) then some (keys.map (getProp ps)) else none

/-- Modelled from the spec: `IsPropertyEqual(key, value)` of the property
store compares the stored value of `key` (absent keys read as null) with
`value` without decoding the rest of the map (§4.2). -/
def IsPropertyEqual (ps : Properties) (k : PropertyId) (v : PropertyValue) : Bool :=
  getProp ps k == v

/-- Undo-record kinds, from the `Delta::Action` enum. -/
inductive DeltaAction
  | deleteObject
  | deleteDeserializedObject
  | recreateObject
  | addLabel (l : LabelId)
  | removeLabel (l : LabelId)
  | setProperty (k : PropertyId) (v : PropertyValue)
  | addInEdge (t : EdgeTypeId) (v : Gid) (e : Gid)
  | addOutEdge (t : EdgeTypeId) (v : Gid) (e : Gid)
  | removeInEdge (t : EdgeTypeId) (v : Gid) (e : Gid)
  | removeOutEdge (t : EdgeTypeId) (v : Gid) (e : Gid)
deriving DecidableEq, Repr

/-- Undo record: the shared timestamp cell of the owning transaction (a
transaction id while the writer is active, overwritten with the commit
timestamp at commit) plus the action. -/
structure Delta where
  timestamp : Nat
  action : DeltaAction
deriving DecidableEq, Repr

/-- Transaction ids are drawn from the upper half of the 64-bit space so that
a raw timestamp cell can be classified: values `≥ kTransactionInitialId` are
transaction ids, smaller values are commit timestamps. -/
def kTransactionInitialId : Nat := 2 ^ 63

/-- Classification of a raw timestamp-cell value as a transaction id. -/
def isTxnId (ts : Nat) : Bool := kTransactionInitialId ≤ ts

/-- Adjacency entry `(edge_type, neighbour vertex, edge ref)`, with the two
pointers replaced by `Gid` keys. -/
abbrev AdjEntry := EdgeTypeId × Gid × Gid

/-- Vertex object.  The delta chain is a list with the newest delta first
(the `vertex->delta` head pointer followed by `next` links). -/
structure Vertex where
  gid : Gid
  deleted : Bool
  labels : List LabelId
  props : Properties
  inEdges : List AdjEntry
  outEdges : List AdjEntry
  delta : List Delta
deriving DecidableEq, Repr

/-- Edge object (the owned variant used when properties-on-edges is
enabled). -/
structure Edge where
  gid : Gid
  deleted : Bool
  props : Properties
  delta : List Delta
deriving DecidableEq, Repr

/-- Error kinds surfaced at the storage boundary by the embedded
operations. -/
inductive OpError
  | serializationError
  | deletedObject
  | nonexistentObject
  | propertiesDisabled
deriving DecidableEq, Repr

/-- Modelled from the spec: `PrepareForWrite(txn, obj)` of `mvcc.hpp` (the
header is not part of the repository snapshot) — "if the head delta exists
and its timestamp is a foreign transaction id, fail with
SERIALIZATION_ERROR.  Otherwise proceed" (§4.3). -/
def PrepareForWrite (txid : Nat) (chain : List Delta) : Bool :=
  match chain.head? with
  | none => true
  | some d => !(isTxnId d.timestamp && d.timestamp != txid)

/-- Modelled from the spec: `CreateAndLinkDelta` of `mvcc.hpp` allocates a
compensating delta stamped with the writing transaction's id and links it as
the new chain head (§4.3, step 3). -/
def CreateAndLinkDelta (txid : Nat) (chain : List Delta) (a : DeltaAction) :
    List Delta :=
  ⟨txid, a⟩ :: chain

/-- Embedding of `EdgeAccessor::SetProperty` (edge_accessor.cpp:18-54): check
`PrepareForWrite`, check the deleted flag, push a `SET_PROPERTY` delta
carrying the previous value (`PropertyValue()` when the key was absent) and
mutate the map in place.  Returns `!existed` on success, paired with the
resulting edge (the input edge on error). -/
def EdgeSetProperty (txid : Nat) (e : Edge) (k : PropertyId) (v : PropertyValue) :
    Except OpError Bool × Edge :=
  if !PrepareForWrite txid e.delta then (.error .serializationError, e)
  else if e.deleted then (.error .deletedObject, e)
  else
    let existed := hasKey e.props k
    let oldVal := getProp e.props k
    (.ok (!existed),
      { e with
        delta := CreateAndLinkDelta txid e.delta (.setProperty k oldVal)
        props := setProp e.props k v })

/-- Removal idiom of the adjacency and label vectors: find the first
occurrence, swap it with the last element, pop the back
(`std::swap(*it, *rbegin); pop_back()`).  When the element is absent the
list is returned unchanged (the `it == end()` case). -/
def swapRemoveFirst [DecidableEq α] (a : α) : List α → List α
  | [] => []
  | x :: xs =>
    if x = a then
      match xs.getLast? with
      | none => []
      | some y => y :: xs.dropLast
    else x :: swapRemoveFirst a xs

/-- Vertex store: the skip list of vertices, keyed by `Gid`. -/
abbrev Store := List Vertex

/-- Pointer dereference: find the vertex with the given `Gid`. -/
def lookupV : Store → Gid → Option Vertex
  | [], _ => none
  | v :: s, g => if v.gid = g then some v else lookupV s g

/-- In-place mutation through a pointer: rewrite the vertex with the given
`Gid`. -/
def updateV : Store → Gid → (Vertex → Vertex) → Store
  | [], _, _ => []
  | v :: s, g, f => (if v.gid = g then f v else v) :: updateV s g f

/-- Swap-with-last removal of an adjacency entry from a vertex's
`out_edges`. -/
def rmOut (en : AdjEntry) (v : Vertex) : Vertex :=
  { v with outEdges := swapRemoveFirst en v.outEdges }

/-- Swap-with-last removal of an adjacency entry from a vertex's
`in_edges`. -/
def rmIn (en : AdjEntry) (v : Vertex) : Vertex :=
  { v with inEdges := swapRemoveFirst en v.inEdges }

/-- Push of a compensating delta on a vertex without a data change (the
`CreateAndLinkDelta` calls for the adjacency removals). -/
def pushDelta (txid : Nat) (a : DeltaAction) (v : Vertex) : Vertex :=
  { v with delta := CreateAndLinkDelta txid v.delta a }

/-- Delta push plus `emplace_back` of a new `out_edges` entry. -/
def addOut (txid : Nat) (en : AdjEntry) (v : Vertex) : Vertex :=
  { v with
    delta := CreateAndLinkDelta txid v.delta (.removeOutEdge en.1 en.2.1 en.2.2)
    outEdges := v.outEdges ++ [en] }

/-- Delta push plus `emplace_back` of a new `in_edges` entry. -/
def addIn (txid : Nat) (en : AdjEntry) (v : Vertex) : Vertex :=
  { v with
    delta := CreateAndLinkDelta txid v.delta (.removeInEdge en.1 en.2.1 en.2.2)
    inEdges := v.inEdges ++ [en] }

/-- State touched by `CreateEdge`: the vertex skip list, the edge skip list,
the edge id counter and the edge count. -/
structure EdgeCreateState where
  store : Store
  edges : List Edge
  nextEdgeId : Nat
  edgeCount : Nat
deriving DecidableEq, Repr

/-- Embedding of `InMemoryAccessor::CreateEdge` (edge_accessor.cpp:886-950):
after locking both endpoints in `Gid` order, `PrepareForWrite` and the
deleted flag are checked on `from`, then on `to` when it is a distinct
vertex; a fresh edge `Gid` is drawn; with properties-on-edges an owned edge
object is inserted, born under a `DELETE_OBJECT` delta; a `REMOVE_OUT_EDGE`
delta is pushed on `from` and the entry appended to its `out_edges`, then
symmetrically `REMOVE_IN_EDGE` on `to`; the edge count is incremented. -/
def CreateEdge (txid : Nat) (pon : Bool) (s : EdgeCreateState)
    (fromGid toGid : Gid) (etype : EdgeTypeId) :
    Except OpError Gid × EdgeCreateState :=
  match lookupV s.store fromGid, lookupV s.store toGid with
  | some fromV, some toV =>
    if !PrepareForWrite txid fromV.delta then (.error .serializationError, s)
    else if fromV.deleted then (.error .deletedObject, s)
    else if toGid ≠ fromGid ∧ !PrepareForWrite txid toV.delta then
      (.error .serializationError, s)
    else if toGid ≠ fromGid ∧ toV.deleted then (.error .deletedObject, s)
    else
      let gid := s.nextEdgeId
      let edges' :=
        if pon then s.edges ++ [⟨gid, false, [], [⟨txid, .deleteObject⟩]⟩]
        else s.edges
      let st1 := updateV s.store fromGid (fun v =>
        { v with
          delta := CreateAndLinkDelta txid v.delta (.removeOutEdge etype toGid gid)
          outEdges := v.outEdges ++ [(etype, toGid, gid)] })
      let st2 := updateV st1 toGid (fun v =>
        { v with
          delta := CreateAndLinkDelta txid v.delta (.removeInEdge etype fromGid gid)
          inEdges := v.inEdges ++ [(etype, fromGid, gid)] })
      (.ok gid,
        { store := st2, edges := edges', nextEdgeId := gid + 1,
          edgeCount := s.edgeCount + 1 })
  | _, _ => (.error .nonexistentObject, s)

/-- Embedding of `InMemoryAccessor::EdgeSetFrom` (edge_accessor.cpp:1027-1127)
for an edge `edge : old_from → to` re-targeted to start at `newFromGid`.
Mirrors the source: immediate success when the new endpoint has the `Gid` of
the current one; with properties-on-edges, `PrepareForWrite` and the deleted
flag of the edge object; `PrepareForWrite` on the (deduplicated) endpoint
vertices; removal of the old adjacency entries by the swap-with-last idiom
(when properties-on-edges is off and both entries are already gone the edge
counts as deleted); `ADD_*` compensating deltas for the removals and
`REMOVE_*` deltas plus appends for the new entries. -/
def EdgeSetFrom (txid : Nat) (pon : Bool) (edge : Edge) (st : Store)
    (etype : EdgeTypeId) (oldFromGid toGid newFromGid : Gid) :
    Except OpError Unit × Store :=
  if oldFromGid = newFromGid then (.ok (), st)
  else if pon && !PrepareForWrite txid edge.delta then
    (.error .serializationError, st)
  else if pon && edge.deleted then (.error .deletedObject, st)
  else
    match lookupV st oldFromGid, lookupV st newFromGid, lookupV st toGid with
    | some oldFromV, some newFromV, some toV =>
      if !PrepareForWrite txid oldFromV.delta then (.error .serializationError, st)
      else if !PrepareForWrite txid newFromV.delta then
        (.error .serializationError, st)
      else if (toGid ≠ oldFromGid ∧ toGid ≠ newFromGid) ∧
          !PrepareForWrite txid toV.delta then
        (.error .serializationError, st)
      else
        let entryOut : AdjEntry := (etype, toGid, edge.gid)
        let entryIn : AdjEntry := (etype, oldFromGid, edge.gid)
        let op1 := decide (entryOut ∈ oldFromV.outEdges)
        let op2 := decide (entryIn ∈ toV.inEdges)
        if !pon && !op1 && !op2 then (.error .deletedObject, st)
        else
          let st1 := updateV st oldFromGid (rmOut entryOut)
          let st2 := updateV st1 toGid (rmIn entryIn)
          let st3 := updateV st2 oldFromGid
            (pushDelta txid (.addOutEdge etype toGid edge.gid))
          let st4 := updateV st3 toGid
            (pushDelta txid (.addInEdge etype oldFromGid edge.gid))
          let st5 := updateV st4 newFromGid (addOut txid (etype, toGid, edge.gid))
          let st6 := updateV st5 toGid (addIn txid (etype, newFromGid, edge.gid))
          (.ok (), st6)
    | _, _, _ => (.error .nonexistentObject, st)

/-- Embedding of `InMemoryAccessor::EdgeSetTo` (edge_accessor.cpp:1129-1229)
for an edge `edge : from → old_to` re-targeted to end at `newToGid`; the
mirror image of `EdgeSetFrom`. -/
def EdgeSetTo (txid : Nat) (pon : Bool) (edge : Edge) (st : Store)
    (etype : EdgeTypeId) (fromGid oldToGid newToGid : Gid) :
    Except OpError Unit × Store :=
  if oldToGid = newToGid then (.ok (), st)
  else if pon && !PrepareForWrite txid edge.delta then
    (.error .serializationError, st)
  else if pon && edge.deleted then (.error .deletedObject, st)
  else
    match lookupV st oldToGid, lookupV st newToGid, lookupV st fromGid with
    | some oldToV, some newToV, some fromV =>
      if !PrepareForWrite txid oldToV.delta then (.error .serializationError, st)
      else if !PrepareForWrite txid newToV.delta then
        (.error .serializationError, st)
      else if (fromGid ≠ oldToGid ∧ fromGid ≠ newToGid) ∧
          !PrepareForWrite txid fromV.delta then
        (.error .serializationError, st)
      else
        let entryOut : AdjEntry := (etype, oldToGid, edge.gid)
        let entryIn : AdjEntry := (etype, fromGid, edge.gid)
        let op1 := decide (entryOut ∈ fromV.outEdges)
        let op2 := decide (entryIn ∈ oldToV.inEdges)
        if !pon && !op1 && !op2 then (.error .deletedObject, st)
        else
          let st1 := updateV st fromGid (rmOut entryOut)
          let st2 := updateV st1 oldToGid (rmIn entryIn)
          let st3 := updateV st2 fromGid
            (pushDelta txid (.addOutEdge etype oldToGid edge.gid))
          let st4 := updateV st3 oldToGid
            (pushDelta txid (.addInEdge etype fromGid edge.gid))
          let st5 := updateV st4 fromGid (addOut txid (etype, newToGid, edge.gid))
          let st6 := updateV st5 newToGid (addIn txid (etype, fromGid, edge.gid))
          (.ok (), st6)
    | _, _, _ => (.error .nonexistentObject, st)

/-- Entry of a unique-constraint storage: the extracted property values, the
indexed vertex (the `Vertex*` of the C++ entry, here the dereferenced value
whose identity is its `gid`), and the start timestamp of the inserting
transaction. -/
structure ConstraintEntry where
  values : List PropertyValue
  vertex : Vertex
  timestamp : Nat
deriving DecidableEq, Repr

/-- Registered unique constraint: its `(label, properties)` key and its
entry storage (`constraints_` together with the `constraints_by_label_`
lookup structure). -/
structure UniqueConstraint where
  label : LabelId
  props : List PropertyId
  entries : List ConstraintEntry
deriving DecidableEq, Repr

/-- Maximum number of properties of a unique constraint
(`kUniqueConstraintsMaxProperties`; the spec's "fixed maximum (typically
4)"). -/
def kUniqueConstraintsMaxProperties : Nat := 4

/-- Tracked state of the commit-validation walk of
`LastCommittedVersionHasLabelProperty`: the deleted flag, the
`has_label` bit and the `current_value_equal_to_value` bit array (aligned
with the constraint's property list). -/
structure WalkState where
  deleted : Bool
  hasLabel : Bool
  eqBits : List Bool
deriving DecidableEq, Repr

/-- Update of the `current_value_equal_to_value` array for a `SET_PROPERTY`
delta: `FindPropertyPosition` locates `k` in the sorted property array and
the bit at that position becomes `delta.value == value_array[pos]`. -/
def updateEqBits (k : PropertyId) (v : PropertyValue) :
    List PropertyId → List PropertyValue → List Bool → List Bool
  | p :: ps, val :: vals, b :: bs =>
      (if p = k then decide (v = val) else b) :: updateEqBits k v ps vals bs
  | _, _, bs => bs

/-- Switch body of the `LastCommittedVersionHasLabelProperty` loop.  The
`ADD_LABEL` / `REMOVE_LABEL` cases of the source fall through when the
delta's label differs from the constraint's, which is a no-op, so only the
matching-label updates remain. -/
def lastCommittedStep (label : LabelId) (props : List PropertyId)
    (values : List PropertyValue) (s : WalkState) (a : DeltaAction) : WalkState :=
  match a with
  | .setProperty k v => { s with eqBits := updateEqBits k v props values s.eqBits }
  | .deleteObject => { s with deleted := true }
  | .deleteDeserializedObject => { s with deleted := true }
  | .recreateObject => { s with deleted := false }
  | .addLabel l => if l = label then { s with hasLabel := true } else s
  | .removeLabel l => if l = label then { s with hasLabel := false } else s
  | _ => s

/-- Stop condition of the commit-validation walk: the loop breaks at the
first delta whose timestamp is strictly below the commit timestamp or equals
the validating transaction's id. -/
def lastCommittedStop (txid commitTs ts : Nat) : Bool :=
  ts < commitTs || ts == txid

/-- Embedding of `LastCommittedVersionHasLabelProperty`
(edge_accessor.cpp:187-275): seed the walk state from the vertex's current
data, undo deltas until the stop condition, then require every value bit,
non-deletion and the label. -/
def LastCommittedVersionHasLabelProperty (v : Vertex) (label : LabelId)
    (props : List PropertyId) (values : List PropertyValue)
    (txid commitTs : Nat) : Bool :=
  let init : WalkState :=
    { deleted := v.deleted
      hasLabel := decide (label ∈ v.labels)
      eqBits := List.zipWith (fun p val => IsPropertyEqual v.props p val) props values }
  let s := (v.delta.takeWhile
      (fun d => !lastCommittedStop txid commitTs d.timestamp)).foldl
    (fun s d => lastCommittedStep label props values s d.action) init
  s.eqBits.all id && !s.deleted && s.hasLabel

/-- Reconstructed historical state of a vertex: deleted flag, label set and
property map. -/
structure SpecVertexState where
  deleted : Bool
  labels : Finset LabelId
  props : Properties
deriving DecidableEq

/-- Application of one undo record to a full reconstructed state, following
the spec's reading of the delta kinds (§3, §4.3). -/
def specUndo (s : SpecVertexState) (a : DeltaAction) : SpecVertexState :=
  match a with
  | .setProperty k v => { s with props := setProp s.props k v }
  | .deleteObject => { s with deleted := true }
  | .deleteDeserializedObject => { s with deleted := true }
  | .recreateObject => { s with deleted := false }
  | .addLabel l => { s with labels := insert l s.labels }
  | .removeLabel l => { s with labels := s.labels.erase l }
  | _ => s

/-- Specification-side reconstruction: the state of a vertex "as of the
validating transaction's commit timestamp", obtained by walking its delta
chain backwards until a timestamp strictly less than `commit_ts` (or equal
to the current transaction id) is found (§4.7). -/
def reconstructAsOf (v : Vertex) (txid commitTs : Nat) : SpecVertexState :=
  (v.delta.takeWhile
      (fun d => !lastCommittedStop txid commitTs d.timestamp)).foldl
    (fun s d => specUndo s d.action)
    { deleted := v.deleted, labels := v.labels.toFinset, props := v.props }

/-- Embedding of `InMemoryUniqueConstraints::Validate`
(edge_accessor.cpp:515-552): a deleted vertex passes; otherwise, for each of
its labels and each constraint registered under that label whose properties
the vertex carries, the constraint storage is scanned for a different vertex
(`&vertex != it->vertex`, here compared by `gid`) with the same value tuple
whose last committed version still has the label and the values; the first
hit is returned as a unique-constraint violation. -/
def Validate (ucs : List UniqueConstraint) (v : Vertex) (txid commitTs : Nat) :
    Option (LabelId × List PropertyId) :=
  if v.deleted then none
  else
    v.labels.findSome? fun label =>
      (ucs.filter (fun c => c.label == label)).findSome? fun c =>
        match ExtractPropertyValues v.props c.props with
        | none => none
        | some values =>
          if c.entries.any (fun e =>
              decide (e.values = values) && decide (e.vertex.gid ≠ v.gid) &&
              LastCommittedVersionHasLabelProperty e.vertex label c.props values
                txid commitTs)
          then some (label, c.props) else none

/-- Embedding of `InMemoryUniqueConstraints::UpdateBeforeCommit`
(edge_accessor.cpp:410-427): for every label of the vertex and every
constraint registered under it, the extracted property values (when all are
present) are inserted as an entry tagged with the transaction's start
timestamp. -/
def UpdateBeforeCommit (ucs : List UniqueConstraint) (v : Vertex)
    (startTs : Nat) : List UniqueConstraint :=
  ucs.map fun c =>
    if c.label ∈ v.labels then
      match ExtractPropertyValues v.props c.props with
      | some values => { c with entries := c.entries ++ [⟨values, v, startTs⟩] }
      | none => c
    else c

/-- Result kinds of `CreateConstraint`. -/
inductive CreationResult
  | success
  | alreadyExists
  | emptyProperties
  | propertiesSizeLimitExceeded
  | violation (label : LabelId) (props : List PropertyId)
deriving DecidableEq, Repr

/-- Scan loop of `CreateConstraint`: walk the vertices, skip deleted ones,
ones without the label and ones missing a property; report a violation as
soon as the accumulated storage already holds an entry with equal values,
and otherwise insert `Entry{values, &vertex, 0}`. -/
def scanForViolation (label : LabelId) (props : List PropertyId) :
    List Vertex → List ConstraintEntry → Bool × List ConstraintEntry
  | [], acc => (false, acc)
  | v :: vs, acc =>
    if v.deleted = false ∧ label ∈ v.labels then
      match ExtractPropertyValues v.props props with
      | none => scanForViolation label props vs acc
      | some values =>
        if acc.any (fun e => e.values == values) then (true, acc)
        else scanForViolation label props vs (acc ++ [⟨values, v, 0⟩])
    else scanForViolation label props vs acc

/-- Embedding of `InMemoryUniqueConstraints::CreateConstraint`
(edge_accessor.cpp:429-483): empty property sets and sets beyond the fixed
maximum are rejected; an existing `(label, properties)` key is reported as
`ALREADY_EXISTS`; otherwise the vertex scan either finds a duplicate value
tuple — the partially built storage is erased and a unique violation
returned — or the fully built constraint is registered. -/
def CreateConstraint (ucs : List UniqueConstraint) (label : LabelId)
    (props : List PropertyId) (vertices : List Vertex) :
    CreationResult × List UniqueConstraint :=
  if props.isEmpty then (.emptyProperties, ucs)
  else if kUniqueConstraintsMaxProperties < props.length then
    (.propertiesSizeLimitExceeded, ucs)
  else if ucs.any (fun c => c.label == label && c.props == props) then
    (.alreadyExists, ucs)
  else
    match scanForViolation label props vertices [] with
    | (true, _) => (.violation label props, ucs)
    | (false, acc) => (.success, ucs ++ [⟨label, props, acc⟩])

/-- Qualifying value tuples of a vertex scan: the extracted values of the
non-deleted vertices that carry the label and all the properties, in scan
order. -/
def qualValues (label : LabelId) (props : List PropertyId)
    (vertices : List Vertex) : List (List PropertyValue) :=
  vertices.filterMap fun v =>
    if v.deleted = false ∧ label ∈ v.labels then
      ExtractPropertyValues v.props props
    else none

/-- Switch body of the vertex branch of `InMemoryAccessor::Abort`
(edge_accessor.cpp:1370-1460): each undo record of the aborting transaction
is replayed against the in-place vertex state — labels and adjacency adds
are `push_back`s, removals use the swap-with-last idiom, `SET_PROPERTY`
restores the saved value, `DELETE_OBJECT` re-marks the vertex deleted and
`RECREATE_OBJECT` resurrects it. -/
def undoVertexDelta (v : Vertex) (a : DeltaAction) : Vertex :=
  match a with
  | .removeLabel l => { v with labels := swapRemoveFirst l v.labels }
  | .addLabel l => { v with labels := v.labels ++ [l] }
  | .setProperty k val => { v with props := setProp v.props k val }
  | .addInEdge t w e => { v with inEdges := v.inEdges ++ [(t, w, e)] }
  | .addOutEdge t w e => { v with outEdges := v.outEdges ++ [(t, w, e)] }
  | .removeInEdge t w e => { v with inEdges := swapRemoveFirst (t, w, e) v.inEdges }
  | .removeOutEdge t w e => { v with outEdges := swapRemoveFirst (t, w, e) v.outEdges }
  | .deleteObject => { v with deleted := true }
  | .deleteDeserializedObject => { v with deleted := true }
  | .recreateObject => { v with deleted := false }

/-- Vertex part of `InMemoryAccessor::Abort`: walk the chain head while the
timestamp cell still holds the aborting transaction's id, replaying each
undo record, then unlink the processed prefix by resetting the chain head to
the first foreign delta. -/
def AbortVertex (txid : Nat) (v : Vertex) : Vertex :=
  let mine := v.delta.takeWhile (fun d => d.timestamp == txid)
  let rest := v.delta.dropWhile (fun d => d.timestamp == txid)
  let v1 := mine.foldl (fun acc d => undoVertexDelta acc d.action) v
  { v1 with delta := rest }

/-- Switch body of the edge branch of `InMemoryAccessor::Abort`
(edge_accessor.cpp:1461-1499). -/
def undoEdgeDelta (e : Edge) (a : DeltaAction) : Edge :=
  match a with
  | .setProperty k val => { e with props := setProp e.props k val }
  | .deleteObject => { e with deleted := true }
  | .deleteDeserializedObject => { e with deleted := true }
  | .recreateObject => { e with deleted := false }
  | _ => e

/-- Edge part of `InMemoryAccessor::Abort`. -/
def AbortEdge (txid : Nat) (e : Edge) : Edge :=
  let mine := e.delta.takeWhile (fun d => d.timestamp == txid)
  let rest := e.delta.dropWhile (fun d => d.timestamp == txid)
  let e1 := mine.foldl (fun acc d => undoEdgeDelta acc d.action) e
  { e1 with delta := rest }

/-- Forward write operations on a vertex that create compensating deltas.
The adjacency operations are those of `CreateEdge` / `EdgeSetFrom` /
`EdgeSetTo`; the label, property and deletion operations are modelled from
the spec (§4.3 writer protocol, §3 delta kinds), their accessor source not
being part of the repository snapshot. -/
inductive WriteOp
  | addLabel (l : LabelId)
  | removeLabel (l : LabelId)
  | setProp (k : PropertyId) (v : PropertyValue)
  | addInEdge (t : EdgeTypeId) (w : Gid) (e : Gid)
  | addOutEdge (t : EdgeTypeId) (w : Gid) (e : Gid)
  | removeInEdge (t : EdgeTypeId) (w : Gid) (e : Gid)
  | removeOutEdge (t : EdgeTypeId) (w : Gid) (e : Gid)
  | deleteVertex
deriving DecidableEq, Repr

/-- In-place forward mutation of a write operation (without the delta). -/
def applyWriteState (v : Vertex) : WriteOp → Vertex
  | .addLabel l => { v with labels := v.labels ++ [l] }
  | .removeLabel l => { v with labels := swapRemoveFirst l v.labels }
  | .setProp k val => { v with props := setProp v.props k val }
  | .addInEdge t w e => { v with inEdges := v.inEdges ++ [(t, w, e)] }
  | .addOutEdge t w e => { v with outEdges := v.outEdges ++ [(t, w, e)] }
  | .removeInEdge t w e => { v with inEdges := swapRemoveFirst (t, w, e) v.inEdges }
  | .removeOutEdge t w e => { v with outEdges := swapRemoveFirst (t, w, e) v.outEdges }
  | .deleteVertex => { v with deleted := true }

/-- Compensating undo record of a write operation; for `SET_PROPERTY` it
carries the previous value. -/
def compDelta (v : Vertex) : WriteOp → DeltaAction
  | .addLabel l => .removeLabel l
  | .removeLabel l => .addLabel l
  | .setProp k _ => .setProperty k (getProp v.props k)
  | .addInEdge t w e => .removeInEdge t w e
  | .addOutEdge t w e => .removeOutEdge t w e
  | .removeInEdge t w e => .addInEdge t w e
  | .removeOutEdge t w e => .addOutEdge t w e
  | .deleteVertex => .recreateObject

/-- Full forward write: push the compensating delta stamped with the
transaction id, then mutate in place (§4.3 steps 3-4). -/
def applyWrite (txid : Nat) (v : Vertex) (op : WriteOp) : Vertex :=
  { applyWriteState v op with
    delta := CreateAndLinkDelta txid v.delta (compDelta v op) }

/-- Sequence of forward writes of one transaction on one vertex. -/
def applyWrites (txid : Nat) (v : Vertex) : List WriteOp → Vertex
  | [] => v
  | op :: ops => applyWrites txid (applyWrite txid v op) ops

/-- Precondition under which a forward write is legal on the current state
(the conditions the accessor layer guarantees and the `MG_ASSERT`s of
`Abort` rely on). -/
def validOp (v : Vertex) : WriteOp → Prop
  | .addLabel l => l ∉ v.labels
  | .removeLabel l => l ∈ v.labels
  | .setProp _ _ => True
  | .addInEdge t w e => (t, w, e) ∉ v.inEdges
  | .addOutEdge t w e => (t, w, e) ∉ v.outEdges
  | .removeInEdge t w e => (t, w, e) ∈ v.inEdges
  | .removeOutEdge t w e => (t, w, e) ∈ v.outEdges
  | .deleteVertex => v.deleted = false

/-- Legality of a write sequence, each operation judged against the state
produced by its predecessors. -/
def ValidOps (txid : Nat) (v : Vertex) : List WriteOp → Prop
  | [] => True
  | op :: ops => validOp v op ∧ ValidOps txid (applyWrite txid v op) ops

/-- Observational equality of vertices: identical scalar state and property
map, and adjacency and label vectors equal as multisets (their order is not
semantic — removal uses swap-with-last), with identical delta chains. -/
def VertexEquiv (v w : Vertex) : Prop :=
  v.gid = w.gid ∧ v.deleted = w.deleted ∧ v.props = w.props ∧
    (v.labels : Multiset LabelId) = (w.labels : Multiset LabelId) ∧
    (v.inEdges : Multiset AdjEntry) = (w.inEdges : Multiset AdjEntry) ∧
    (v.outEdges : Multiset AdjEntry) = (w.outEdges : Multiset AdjEntry) ∧
    v.delta = w.delta

/-- Observational equality of the data fields only (everything of
`VertexEquiv` except the delta chain), the relation preserved step by step
while `Abort` replays undo records. -/
def SameData (v w : Vertex) : Prop :=
  v.gid = w.gid ∧ v.deleted = w.deleted ∧ v.props = w.props ∧
    (v.labels : Multiset LabelId) = (w.labels : Multiset LabelId) ∧
    (v.inEdges : Multiset AdjEntry) = (w.inEdges : Multiset AdjEntry) ∧
    (v.outEdges : Multiset AdjEntry) = (w.outEdges : Multiset AdjEntry)

/-- Vertex freshly inserted by `CreateVertex` (edge_accessor.cpp:791-806):
empty state born under a `DELETE_OBJECT` delta of the creating
transaction. -/
def newVertex (gid : Gid) (txid : Nat) : Vertex :=
  { gid := gid, deleted := false, labels := [], props := [], inEdges := [],
    outEdges := [], delta := [⟨txid, .deleteObject⟩] }

/-- Records of the write-ahead log, before binary encoding: a data record
derived from a vertex or edge delta (stamped with the final commit
timestamp), or the transaction terminator. -/
inductive WalRecord
  | vRec (ts : Nat) (gid : Gid) (a : DeltaAction)
  | eRec (ts : Nat) (gid : Gid) (a : DeltaAction)
  | txEnd (ts : Nat)
deriving DecidableEq, Repr

/-- Object of a transaction's delta buffer as seen by
`AppendToWalDataManipulation`: the owning parent (vertex or edge, by `Gid`)
together with this transaction's deltas on it in chronological order (the
`find_and_apply_deltas` helper walks to the oldest delta of the transaction
and then emits towards the newest). -/
structure TxnObject where
  isVertex : Bool
  gid : Gid
  chron : List DeltaAction
deriving DecidableEq, Repr

/-- Filter of pass 1 (edge_accessor.cpp:2184-2200): operations that create
vertices and modify vertex data. -/
def walPass1 : DeltaAction → Bool
  | .deleteObject => true
  | .deleteDeserializedObject => true
  | .setProperty _ _ => true
  | .addLabel _ => true
  | .removeLabel _ => true
  | _ => false

/-- Filter of pass 2 (edge_accessor.cpp:2207-2222): operations that create
edges. -/
def walPass2 : DeltaAction → Bool
  | .removeOutEdge _ _ _ => true
  | _ => false

/-- Filter of pass 3 (edge_accessor.cpp:2229-2244): operations that modify
edge data. -/
def walPass3 : DeltaAction → Bool
  | .setProperty _ _ => true
  | _ => false

/-- Filter of pass 4 (edge_accessor.cpp:2251-2266): operations that delete
edges. -/
def walPass4 : DeltaAction → Bool
  | .addOutEdge _ _ _ => true
  | _ => false

/-- Filter of pass 5 (edge_accessor.cpp:2273-2288): operations that delete
vertices. -/
def walPass5 : DeltaAction → Bool
  | .recreateObject => true
  | _ => false

/-- One emission pass: every object of the requested parent kind contributes
its chronologically ordered deltas that pass the filter. -/
def emitPass (objs : List TxnObject) (isVertex : Bool) (f : DeltaAction → Bool)
    (ts : Nat) : List WalRecord :=
  objs.flatMap fun o =>
    if o.isVertex = isVertex then
      (o.chron.filter f).map fun a =>
        if isVertex then WalRecord.vRec ts o.gid a else WalRecord.eRec ts o.gid a
    else []

/-- Embedding of `InMemoryStorage::AppendToWalDataManipulation`
(edge_accessor.cpp:2135-2303): five filtered passes over the transaction's
objects — vertex creations and vertex data changes, edge creations, edge
data changes, edge deletions, vertex deletions — terminated by a
`TRANSACTION_END` record carrying the final commit timestamp. -/
def AppendToWalDataManipulation (objs : List TxnObject) (finalTs : Nat) :
    List WalRecord :=
  emitPass objs true walPass1 finalTs ++ emitPass objs true walPass2 finalTs ++
    emitPass objs false walPass3 finalTs ++ emitPass objs true walPass4 finalTs ++
    emitPass objs true walPass5 finalTs ++ [WalRecord.txEnd finalTs]

/-- Classification of WAL records in the claim's vocabulary.  A delta is an
undo record, so the stored redo operation is its inverse: a vertex
`DELETE_OBJECT` delta is written as a vertex-creation record, a vertex
`RECREATE_OBJECT` delta as a vertex deletion, a vertex `REMOVE_OUT_EDGE`
delta as an edge creation and a vertex `ADD_OUT_EDGE` delta as an edge
deletion (spec §3: "a newly visible object is born via a DELETE_OBJECT
delta"; §4.9). -/
inductive WalClass
  | vertexCreate
  | vertexMutate
  | edgeCreate
  | edgeMutate
  | edgeDelete
  | vertexDelete
  | transactionEnd
  | other
deriving DecidableEq, Repr

/-- Class of a record. -/
def walClass : WalRecord → WalClass
  | .vRec _ _ .deleteObject => .vertexCreate
  | .vRec _ _ .deleteDeserializedObject => .vertexCreate
  | .vRec _ _ (.setProperty _ _) => .vertexMutate
  | .vRec _ _ (.addLabel _) => .vertexMutate
  | .vRec _ _ (.removeLabel _) => .vertexMutate
  | .vRec _ _ (.removeOutEdge _ _ _) => .edgeCreate
  | .vRec _ _ (.addOutEdge _ _ _) => .edgeDelete
  | .vRec _ _ .recreateObject => .vertexDelete
  | .eRec _ _ (.setProperty _ _) => .edgeMutate
  | .txEnd _ => .transactionEnd
  | _ => .other

/-- Rank of a record class in the ordering asserted by the claim: all vertex
creations, then all vertex property/label mutations, then edge creations,
edge property mutations, edge deletions, vertex deletions, and the
terminator. -/
def claimRank : WalClass → Nat
  | .vertexCreate => 0
  | .vertexMutate => 1
  | .edgeCreate => 2
  | .edgeMutate => 3
  | .edgeDelete => 4
  | .vertexDelete => 5
  | .transactionEnd => 6
  | .other => 7

/-- Ordering predicate of the claim: record ranks never decrease along the
emitted group. -/
def claimOrdered (rs : List WalRecord) : Prop :=
  List.Chain' (fun r s => claimRank (walClass r) ≤ claimRank (walClass s)) rs

instance (rs : List WalRecord) : Decidable (claimOrdered rs) :=
  inferInstanceAs (Decidable (List.Chain' _ rs))

/-- Committed transaction awaiting garbage collection: its commit timestamp
(the value its shared timestamp cell was rewritten to) and its undo
buffer. -/
structure CommittedTxn where
  commitTs : Nat
  buffer : List Delta
deriving DecidableEq, Repr

/-- Garbage-collector state: the committed-transactions list (front =
smallest commit timestamp), the to-free list of unlinked undo buffers tagged
with their mark timestamps, and the engine timestamp counter. -/
structure GCState where
  committed : List CommittedTxn
  garbage : List (Nat × List Delta)
  timestamp : Nat
deriving DecidableEq, Repr

/-- Outcome of one garbage-collection pass: the resulting state, the
transactions whose deltas were unlinked from the version chains, and the
undo buffers that were freed. -/
structure GCResult where
  state : GCState
  unlinked : List CommittedTxn
  freed : List (Nat × List Delta)
deriving DecidableEq, Repr

/-- Embedding of the delta-pruning phases of `InMemoryStorage::CollectGarbage`
(edge_accessor.cpp:1856-1984, 1998-2038): transactions are popped from the
front of the committed list while `commit_ts < oldest_active_start_timestamp`
and their deltas unlinked; the unlinked buffers are appended to the to-free
list tagged with the current engine timestamp; finally buffers are freed
from the front of the to-free list while their tag is at most the oldest
active start timestamp. -/
def CollectGarbage (oldest : Nat) (st : GCState) : GCResult :=
  let unlinked := st.committed.takeWhile (fun t => t.commitTs < oldest)
  let remaining := st.committed.dropWhile (fun t => t.commitTs < oldest)
  let mark := st.timestamp
  let garbage1 := st.garbage ++ unlinked.map (fun t => (mark, t.buffer))
  let freed := garbage1.takeWhile (fun b => b.1 ≤ oldest)
  let garbage2 := garbage1.dropWhile (fun b => b.1 ≤ oldest)
  { state := { committed := remaining, garbage := garbage2, timestamp := st.timestamp }
    unlinked := unlinked
    freed := freed }

/-- Transaction handle: transaction id and start timestamp. -/
structure Txn where
  id : Nat
  startTs : Nat
deriving DecidableEq, Repr

/-- Modelled storage state threaded through `Commit`: the vertex skip list,
the registered unique constraints, the existence constraints (as
`(label, property)` pairs), the engine timestamp counter, the WAL tail and
the commit log (as the list of timestamps marked finished). -/
structure MiniStorage where
  vertices : List Vertex
  ucs : List UniqueConstraint
  ecs : List (LabelId × PropertyId)
  timestamp : Nat
  wal : List WalRecord
  commitLog : List Nat
deriving DecidableEq, Repr

/-- Vertices modified by a transaction: those whose chain head is a delta of
the transaction (in the source these are found through the `prev` pointers
of the delta buffer; only the chain-head delta of each object points back at
it). -/
def modifiedVertices (st : MiniStorage) (tx : Txn) : List Vertex :=
  st.vertices.filter fun v =>
    match v.delta.head? with
    | some d => d.timestamp == tx.id
    | none => false

/-- Modelled from the spec: `ExistenceConstraints::Validate` — for every
existence constraint `(label, property)`, a vertex carrying `label` must
carry `property` (§4.7); the validator source is not part of the repository
snapshot. -/
def existenceViolation (ecs : List (LabelId × PropertyId)) (v : Vertex) :
    Option (LabelId × PropertyId) :=
  ecs.find? fun c => decide (c.1 ∈ v.labels) && !hasKey v.props c.2

/-- First existence violation among the modified vertices
(edge_accessor.cpp:1248-1261). -/
def firstExistenceViolation (ecs : List (LabelId × PropertyId))
    (mods : List Vertex) : Option (LabelId × PropertyId) :=
  mods.findSome? (existenceViolation ecs)

/-- First unique violation among the modified vertices
(edge_accessor.cpp:1291-1304). -/
def firstUniqueViolation (ucs : List UniqueConstraint) (mods : List Vertex)
    (txid commitTs : Nat) : Option (LabelId × List PropertyId) :=
  mods.findSome? fun v => Validate ucs v txid commitTs

/-- Commit error kinds. -/
inductive CommitError
  | existenceViolation (l : LabelId) (p : PropertyId)
  | uniqueViolation (l : LabelId) (ps : List PropertyId)
deriving DecidableEq, Repr

/-- Abort of a transaction applied to the whole vertex store. -/
def abortStorage (txid : Nat) (vs : List Vertex) : List Vertex :=
  vs.map (AbortVertex txid)

/-- Publication of a commit: every delta still stamped with the transaction
id is rewritten to the commit timestamp (the atomic walk of the delta buffer
rewriting the shared timestamp cell). -/
def publishVertices (txid commitTs : Nat) (vs : List Vertex) : List Vertex :=
  vs.map fun v =>
    { v with
      delta := v.delta.map fun d =>
        if d.timestamp = txid then { d with timestamp := commitTs } else d }

/-- WAL objects of a transaction: every modified vertex with its
chronologically ordered deltas (the chain prefix owned by the transaction,
oldest first). -/
def walObjects (st : MiniStorage) (tx : Txn) : List TxnObject :=
  (modifiedVertices st tx).map fun v =>
    { isVertex := true, gid := v.gid,
      chron := ((v.delta.takeWhile (fun d => d.timestamp == tx.id)).map
        (fun d => d.action)).reverse }

/-- Embedding of `InMemoryAccessor::Commit` (edge_accessor.cpp:1232-1359)
for a main-role storage: a transaction with an empty delta buffer only marks
its start timestamp finished in the commit log; otherwise existence
constraints are validated first (violation aborts the transaction before a
commit timestamp exists), then under the engine lock a commit timestamp is
drawn, the unique-constraint storages are fed the modified vertices, each
modified vertex is validated, and on success the WAL group is appended, the
deltas republished under the commit timestamp and the start timestamp marked
finished; a unique violation aborts the transaction instead. -/
def Commit (st : MiniStorage) (tx : Txn) : Option CommitError × MiniStorage :=
  let mods := modifiedVertices st tx
  if mods.isEmpty then
    (none, { st with commitLog := tx.startTs :: st.commitLog })
  else
    match firstExistenceViolation st.ecs mods with
    | some (l, p) =>
      (some (.existenceViolation l p),
        { st with
          vertices := abortStorage tx.id st.vertices
          commitLog := tx.startTs :: st.commitLog })
    | none =>
      let commitTs := st.timestamp
      let ucs1 := mods.foldl (fun u v => UpdateBeforeCommit u v tx.startTs) st.ucs
      match firstUniqueViolation ucs1 mods tx.id commitTs with
      | some (l, ps) =>
        (some (.uniqueViolation l ps),
          { st with
            vertices := abortStorage tx.id st.vertices
            ucs := ucs1
            timestamp := commitTs + 1
            commitLog := tx.startTs :: st.commitLog })
      | none =>
        (none,
          { st with
            vertices := publishVertices tx.id commitTs st.vertices
            ucs := ucs1
            timestamp := commitTs + 1
            wal := st.wal ++ AppendToWalDataManipulation (walObjects st tx) commitTs
            commitLog := tx.startTs :: st.commitLog })

instance (v w : Vertex) : Decidable (VertexEquiv v w) :=
  inferInstanceAs (Decidable (v.gid = w.gid ∧ v.deleted = w.deleted ∧
    v.props = w.props ∧
    (v.labels : Multiset LabelId) = (w.labels : Multiset LabelId) ∧
    (v.inEdges : Multiset AdjEntry) = (w.inEdges : Multiset AdjEntry) ∧
    (v.outEdges : Multiset AdjEntry) = (w.outEdges : Multiset AdjEntry) ∧
    v.delta = w.delta))

instance (v : Vertex) (op : WriteOp) : Decidable (validOp v op) :=
  match op with
  | .addLabel l => inferInstanceAs (Decidable (l ∉ v.labels))
  | .removeLabel l => inferInstanceAs (Decidable (l ∈ v.labels))
  | .setProp _ _ => inferInstanceAs (Decidable True)
  | .addInEdge t w e => inferInstanceAs (Decidable ((t, w, e) ∉ v.inEdges))
  | .addOutEdge t w e => inferInstanceAs (Decidable ((t, w, e) ∉ v.outEdges))
  | .removeInEdge t w e => inferInstanceAs (Decidable ((t, w, e) ∈ v.inEdges))
  | .removeOutEdge t w e => inferInstanceAs (Decidable ((t, w, e) ∈ v.outEdges))
  | .deleteVertex => inferInstanceAs (Decidable (v.deleted = false))

instance instDecValidOps (txid : Nat) (v : Vertex) (ops : List WriteOp) :
    Decidable (ValidOps txid v ops) :=
  match ops with
  | [] => isTrue trivial
  | op :: ops =>
    @instDecidableAnd _ _ inferInstance
      (instDecValidOps txid (applyWrite txid v op) ops)

/-- Rank of a record class in the ordering the code actually produces:
pass 1 emits vertex creations and vertex data mutations together, so they
share one rank; then edge creations, edge property mutations, edge
deletions, vertex deletions and the terminator follow. -/
def amendedRank : WalClass → Nat
  | .vertexCreate => 0
  | .vertexMutate => 0
  | .edgeCreate => 1
  | .edgeMutate => 2
  | .edgeDelete => 3
  | .vertexDelete => 4
  | .transactionEnd => 5
  | .other => 6

/-- Ordering predicate of the amended claim: amended ranks never decrease
along the emitted group. -/
def amendedOrdered (rs : List WalRecord) : Prop :=
  List.Chain' (fun r s => amendedRank (walClass r) ≤ amendedRank (walClass s)) rs

instance (rs : List WalRecord) : Decidable (amendedOrdered rs) :=
  inferInstanceAs (Decidable (List.Chain' _ rs))

theorem getProp_eq_nullv_of_forall_ne (ps : Properties) (k : PropertyId)
    (h : ∀ p ∈ ps, p.1 ≠ k) : getProp ps k = .nullv := by
  induction ps with
  | nil => rfl
  | cons p rest ih =>
    obtain ⟨k', v'⟩ := p
    simp only [getProp]
    rw [if_neg fun hk => h (k', v') (List.mem_cons_self _ _) hk.symm]
    exact ih fun q hq => h q (List.mem_cons_of_mem _ hq)

theorem getProp_setProp_ne (ps : Properties) (k k' : PropertyId)
    (v : PropertyValue) (h : k' ≠ k) :
    getProp (setProp ps k v) k' = getProp ps k' := by
  induction ps with
  | nil => by_cases hv : v = .nullv <;> simp [setProp, hv, getProp, h]
  | cons p rest ih =>
    obtain ⟨k0, v0⟩ := p
    by_cases h1 : k < k0
    · by_cases hv : v = .nullv <;> simp [setProp, h1, hv, getProp, h]
    · by_cases h2 : k = k0
      · have hk0 : k' ≠ k0 := h2 ▸ h
        by_cases hv : v = .nullv <;> simp [setProp, h1, h2, hv, getProp, h, hk0]
      · simp only [setProp, if_neg h1, if_neg h2, getProp]
        by_cases h3 : k' = k0 <;> simp [h3, ih]

theorem getProp_setProp_self (ps : Properties) (k : PropertyId)
    (v : PropertyValue) (hs : PropsSorted ps) :
    getProp (setProp ps k v) k = v := by
  induction ps with
  | nil => by_cases hv : v = .nullv <;> simp [setProp, hv, getProp]
  | cons p rest ih =>
    obtain ⟨k0, v0⟩ := p
    rw [PropsSorted, List.pairwise_cons] at hs
    have hrest : getProp rest k = .nullv → True := fun _ => trivial
    by_cases h1 : k < k0
    · have hne : k ≠ k0 := Nat.ne_of_lt h1
      have habs : getProp rest k = .nullv :=
        getProp_eq_nullv_of_forall_ne rest k fun p hp => by
          have h4 : k0 < p.1 := hs.1 p hp
          exact Nat.ne_of_gt (Nat.lt_trans h1 h4)
      by_cases hv : v = .nullv
      · simp [setProp, h1, hv, getProp, hne, habs]
      · simp [setProp, h1, hv, getProp]
    · by_cases h2 : k = k0
      · subst h2
        have habs : getProp rest k = .nullv :=
          getProp_eq_nullv_of_forall_ne rest k fun p hp => by
            have h4 : k < p.1 := hs.1 p hp
            exact Nat.ne_of_gt h4
        by_cases hv : v = .nullv <;> simp [setProp, h1, hv, getProp, habs]
      · simp only [setProp, if_neg h1, if_neg h2, getProp, if_neg h2]
        exact ih hs.2

theorem setProp_keys_sub (ps : Properties) (k : PropertyId) (v : PropertyValue) :
    ∀ q ∈ setProp ps k v, q.1 = k ∨ q ∈ ps := by
  induction ps with
  | nil => by_cases hv : v = .nullv <;> simp [setProp, hv]
  | cons p rest ih =>
    obtain ⟨k0, v0⟩ := p
    by_cases h1 : k < k0
    · by_cases hv : v = .nullv <;> simp [setProp, h1, hv] <;> tauto
    · by_cases h2 : k = k0
      · by_cases hv : v = .nullv <;> simp [setProp, h1, h2, hv] <;> tauto
      · intro q hq
        simp only [setProp, if_neg h1, if_neg h2, List.mem_cons] at hq
        rcases hq with h | h
        · right; exact List.mem_cons.mpr (Or.inl h)
        · rcases ih q h with h' | h'
          · left; exact h'
          · right; exact List.mem_cons.mpr (Or.inr h')

theorem setProp_sorted (ps : Properties) (k : PropertyId) (v : PropertyValue)
    (hs : PropsSorted ps) : PropsSorted (setProp ps k v) := by
  induction ps with
  | nil =>
    by_cases hv : v = .nullv <;> simp [setProp, hv, PropsSorted]
  | cons p rest ih =>
    obtain ⟨k0, v0⟩ := p
    rw [PropsSorted, List.pairwise_cons] at hs
    by_cases h1 : k < k0
    · by_cases hv : v = .nullv
      · simpa [setProp, h1, hv, PropsSorted, List.pairwise_cons] using hs
      · simp only [setProp, if_pos h1, if_neg hv]
        rw [PropsSorted, List.pairwise_cons]
        constructor
        · intro p hp
          rcases List.mem_cons.mp hp with h | h
          · subst h; exact h1
          · have h4 : k0 < p.1 := hs.1 p h
            exact Nat.lt_trans h1 h4
        · rw [List.pairwise_cons]; exact hs
    · by_cases h2 : k = k0
      · by_cases hv : v = .nullv
        · simp only [setProp, if_neg h1, if_pos h2, if_pos hv]
          exact hs.2
        · simp only [setProp, if_neg h1, if_pos h2, if_neg hv]
          rw [PropsSorted, List.pairwise_cons]
          refine ⟨fun p hp => ?_, hs.2⟩
          have h4 : k0 < p.1 := hs.1 p hp
          exact h2 ▸ h4
      · simp only [setProp, if_neg h1, if_neg h2]
        rw [PropsSorted, List.pairwise_cons]
        constructor
        · intro p hp
          by_cases hv : v = .nullv
          all_goals {
            have hsub : ∀ q ∈ setProp rest k v, q.1 = k ∨ q ∈ rest :=
              setProp_keys_sub rest k v
            rcases hsub p hp with h | h
            · have h5 : k0 < k :=
                Nat.lt_of_le_of_ne (Nat.not_lt.mp h1) (fun heq => h2 heq.symm)
              exact h ▸ h5
            · exact hs.1 p h }
        · exact ih hs.2

theorem setProp_noNull (ps : Properties) (k : PropertyId) (v : PropertyValue)
    (h : ∀ p ∈ ps, p.2 ≠ PropertyValue.nullv) :
    ∀ p ∈ setProp ps k v, p.2 ≠ PropertyValue.nullv := by
  induction ps with
  | nil =>
    intro q hq
    by_cases hv : v = .nullv
    · simp [setProp, hv] at hq
    · simp only [setProp, if_neg hv, List.mem_singleton] at hq
      rw [hq]; exact hv
  | cons p rest ih =>
    obtain ⟨k0, v0⟩ := p
    have h0 : (k0, v0).2 ≠ PropertyValue.nullv := h _ (List.mem_cons_self _ _)
    have hrest : ∀ p ∈ rest, p.2 ≠ PropertyValue.nullv :=
      fun q hq => h q (List.mem_cons_of_mem _ hq)
    intro q hq
    by_cases h1 : k < k0
    · by_cases hv : v = .nullv
      · simp only [setProp, if_pos h1, if_pos hv] at hq
        exact h q hq
      · simp only [setProp, if_pos h1, if_neg hv, List.mem_cons] at hq
        rcases hq with h2 | h2 | h2
        · rw [h2]; exact hv
        · rw [h2]; exact h0
        · exact hrest q h2
    · by_cases h2 : k = k0
      · by_cases hv : v = .nullv
        · simp only [setProp, if_neg h1, if_pos h2, if_pos hv] at hq
          exact hrest q hq
        · simp only [setProp, if_neg h1, if_pos h2, if_neg hv, List.mem_cons] at hq
          rcases hq with h3 | h3
          · rw [h3]; exact hv
          · exact hrest q h3
      · simp only [setProp, if_neg h1, if_neg h2, List.mem_cons] at hq
        rcases hq with h3 | h3
        · rw [h3]; exact h0
        · exact ih hrest q h3

theorem setProp_WF (ps : Properties) (k : PropertyId) (v : PropertyValue)
    (h : PropsWF ps) : PropsWF (setProp ps k v) :=
  ⟨setProp_sorted ps k v h.1, setProp_noNull ps k v h.2⟩

theorem setProp_absent_null (ps : Properties) (k : PropertyId)
    (habs : ∀ p ∈ ps, p.1 ≠ k) :
    setProp ps k PropertyValue.nullv = ps := by
  induction ps with
  | nil => simp [setProp]
  | cons p rest ih =>
    obtain ⟨k0, v0⟩ := p
    have hne : k ≠ k0 := fun h => habs (k0, v0) (List.mem_cons_self _ _) h.symm
    by_cases h1 : k < k0
    · simp [setProp, h1]
    · simp only [setProp, if_neg h1, if_neg hne, if_pos rfl]
      rw [ih fun p hp => habs p (List.mem_cons_of_mem _ hp)]

theorem setProp_lt_all (ps : Properties) (k : PropertyId) (w : PropertyValue)
    (hw : w ≠ .nullv) (hlt : ∀ p ∈ ps, k < p.1) :
    setProp ps k w = (k, w) :: ps := by
  cases ps with
  | nil => simp [setProp, hw]
  | cons p rest =>
    obtain ⟨k0, v0⟩ := p
    have h1 : k < k0 := hlt (k0, v0) (List.mem_cons_self _ _)
    simp [setProp, h1, hw]

theorem setProp_setProp (ps : Properties) (k : PropertyId)
    (v w : PropertyValue) (hs : PropsSorted ps) :
    setProp (setProp ps k v) k w = setProp ps k w := by
  induction ps with
  | nil =>
    by_cases hv : v = .nullv <;> by_cases hw : w = .nullv <;>
      simp [setProp, hv, hw, Nat.lt_irrefl]
  | cons p rest ih =>
    obtain ⟨k0, v0⟩ := p
    rw [PropsSorted, List.pairwise_cons] at hs
    by_cases h1 : k < k0
    · by_cases hv : v = .nullv
      · simp [setProp, h1, hv]
      · by_cases hw : w = .nullv <;>
          simp [setProp, h1, hv, hw, Nat.lt_irrefl]
    · by_cases h2 : k = k0
      · subst h2
        have habs : ∀ p ∈ rest, p.1 ≠ k := fun p hp =>
          Nat.ne_of_gt (hs.1 p hp)
        by_cases hv : v = .nullv
        · subst hv
          have hred : setProp ((k, v0) :: rest) k PropertyValue.nullv = rest := by
            simp [setProp, Nat.lt_irrefl]
          rw [hred]
          by_cases hw : w = .nullv
          · subst hw
            rw [setProp_absent_null rest k habs, hred]
          · rw [setProp_lt_all rest k w hw fun p hp => hs.1 p hp]
            simp [setProp, Nat.lt_irrefl, hw]
        · by_cases hw : w = .nullv <;>
            simp [setProp, h1, hv, hw, Nat.lt_irrefl]
      · simp only [setProp, if_neg h1, if_neg h2]
        rw [ih hs.2]

theorem setProp_getProp_self (ps : Properties) (k : PropertyId)
    (h : PropsWF ps) : setProp ps k (getProp ps k) = ps := by
  induction ps with
  | nil => simp [setProp, getProp]
  | cons p rest ih =>
    obtain ⟨k0, v0⟩ := p
    have h0 : v0 ≠ .nullv := h.2 (k0, v0) (List.mem_cons_self _ _)
    have hs := h.1
    rw [PropsSorted, List.pairwise_cons] at hs
    have hWFrest : PropsWF rest :=
      ⟨hs.2, fun p hp => h.2 p (List.mem_cons_of_mem _ hp)⟩
    by_cases h2 : k = k0
    · subst h2
      simp [getProp, setProp, Nat.lt_irrefl, h0]
    · by_cases h1 : k < k0
      · have habs : ∀ p ∈ rest, p.1 ≠ k := fun p hp =>
          Nat.ne_of_gt (Nat.lt_trans h1 (hs.1 p hp))
        have hget : getProp ((k0, v0) :: rest) k = .nullv := by
          simp only [getProp, if_neg h2]
          exact getProp_eq_nullv_of_forall_ne rest k habs
        rw [hget]
        simp [setProp, h1]
      · simp only [getProp, if_neg h2, setProp, if_neg h1, if_neg h2]
        rw [ih hWFrest]

theorem setProp_restore (ps : Properties) (k : PropertyId) (v : PropertyValue)
    (h : PropsWF ps) :
    setProp (setProp ps k v) k (getProp ps k) = ps := by
  rw [setProp_setProp ps k v _ h.1, setProp_getProp_self ps k h]

theorem swapRemoveFirst_perm_erase [DecidableEq α] (a : α) (xs : List α) :
    List.Perm (swapRemoveFirst a xs) (xs.erase a) := by
  induction xs with
  | nil => simp [swapRemoveFirst]
  | cons x xs ih =>
    by_cases h : x = a
    · subst h
      rw [List.erase_cons_head]
      cases hlast : xs.getLast? with
      | none =>
        have hnil : xs = [] := List.getLast?_eq_none_iff.mp hlast
        subst hnil
        simp [swapRemoveFirst]
      | some y =>
        have hsplit : xs.dropLast ++ [y] = xs :=
          List.dropLast_append_getLast? y hlast
        have hgoal : swapRemoveFirst x (x :: xs) = y :: xs.dropLast := by
          simp [swapRemoveFirst, hlast]
        rw [hgoal]
        conv_rhs => rw [← hsplit]
        exact (List.perm_append_singleton y xs.dropLast).symm
    · rw [List.erase_cons_tail (by simpa using h)]
      simp only [swapRemoveFirst, if_neg h]
      exact List.Perm.cons x ih

theorem swapRemoveFirst_coe [DecidableEq α] (a : α) (xs : List α) :
    ((swapRemoveFirst a xs : List α) : Multiset α) = (xs : Multiset α).erase a := by
  rw [Multiset.coe_erase]
  exact Multiset.coe_eq_coe.mpr (swapRemoveFirst_perm_erase a xs)

theorem append_singleton_coe (xs : List α) (a : α) :
    ((xs ++ [a] : List α) : Multiset α) = a ::ₘ (xs : Multiset α) :=
  Multiset.coe_eq_coe.mpr (List.perm_append_singleton a xs)

theorem swapRemoveFirst_append_cancel [DecidableEq α] (a : α) (xs : List α)
    (_h : a ∉ xs) :
    ((swapRemoveFirst a (xs ++ [a]) : List α) : Multiset α) = (xs : Multiset α) := by
  rw [swapRemoveFirst_coe, append_singleton_coe, Multiset.erase_cons_head]

theorem append_swapRemoveFirst_cancel [DecidableEq α] (a : α) (xs : List α)
    (h : a ∈ xs) :
    ((swapRemoveFirst a xs ++ [a] : List α) : Multiset α) = (xs : Multiset α) := by
  rw [append_singleton_coe, swapRemoveFirst_coe]
  exact Multiset.cons_erase (by exact_mod_cast h)

theorem lookupV_gid (s : Store) (g : Gid) (v : Vertex)
    (h : lookupV s g = some v) : v.gid = g := by
  induction s with
  | nil => simp [lookupV] at h
  | cons w s ih =>
    by_cases hw : w.gid = g
    · simp only [lookupV, if_pos hw, Option.some.injEq] at h
      rw [← h]; exact hw
    · simp only [lookupV, if_neg hw] at h
      exact ih h

theorem lookupV_updateV (s : Store) (g g' : Gid) (f : Vertex → Vertex)
    (hf : ∀ v, (f v).gid = v.gid) :
    lookupV (updateV s g f) g' =
      (lookupV s g').map (fun v => if v.gid = g then f v else v) := by
  induction s with
  | nil => rfl
  | cons v s ih =>
    have hwgid : (if v.gid = g then f v else v).gid = v.gid := by
      by_cases h : v.gid = g <;> simp [h, hf]
    by_cases hg : v.gid = g'
    · have h1 : (if v.gid = g then f v else v).gid = g' := hwgid.trans hg
      simp only [updateV, lookupV, if_pos h1, if_pos hg]
      rfl
    · have h1 : ¬(if v.gid = g then f v else v).gid = g' := by
        rw [hwgid]; exact hg
      simp only [updateV, lookupV, if_neg h1, if_neg hg]
      exact ih

theorem lookupV_updateV_same (s : Store) (g : Gid) (f : Vertex → Vertex)
    (hf : ∀ v, (f v).gid = v.gid) (v : Vertex) (hv : lookupV s g = some v) :
    lookupV (updateV s g f) g = some (f v) := by
  rw [lookupV_updateV s g g f hf, hv]
  have : v.gid = g := lookupV_gid s g v hv
  simp [this]

theorem lookupV_updateV_ne (s : Store) (g g' : Gid) (f : Vertex → Vertex)
    (hf : ∀ v, (f v).gid = v.gid) (hne : g' ≠ g) :
    lookupV (updateV s g f) g' = lookupV s g' := by
  rw [lookupV_updateV s g g' f hf]
  cases hv : lookupV s g' with
  | none => rfl
  | some v =>
    have : v.gid = g' := lookupV_gid s g' v hv
    simp [this, hne]

/-- C8: the claim says that with properties-on-edges disabled,
`EdgeAccessor::SetProperty` returns `PROPERTIES_DISABLED` without modifying
state (and the repository's own test,
tests/unit/storage_v2_durability_inmemory.cpp:132, asserts exactly that).
The `SetProperty` in src (edge_accessor.cpp:18-54) contains no
properties-on-edges branch at all: its behaviour does not depend on that
configuration flag — it is not even an input of the function — and it can
never produce `PROPERTIES_DISABLED`.  At the concrete failing input (a live
edge with no chain, in a database configured without edge properties) it
sets the property and answers `ok true`. -/
theorem EdgeSetProperty_never_disabled :
    (∀ (txid : Nat) (e : Edge) (k : PropertyId) (v : PropertyValue),
      (EdgeSetProperty txid e k v).1 ≠ Except.error OpError.propertiesDisabled) ∧
    EdgeSetProperty (2 ^ 63) ⟨7, false, [], []⟩ 1 (.intv 5) =
      (.ok true, ⟨7, false, [(1, .intv 5)], [⟨2 ^ 63, .setProperty 1 .nullv⟩]⟩) := by
  constructor
  · intro txid e k v
    rw [EdgeSetProperty]
    by_cases h1 : PrepareForWrite txid e.delta
    · by_cases h2 : e.deleted <;> simp [h1, h2]
    · simp [h1]
  · rfl

/-- C9: re-targeting an edge onto an endpoint with the `Gid` of its current
endpoint (`EdgeSetFrom` with `new_from` at the edge's current origin,
`EdgeSetTo` with `new_to` at its current target) succeeds immediately and is
a complete no-op: the early `gid` comparison returns before any lock,
delta or adjacency mutation, so the store is returned unchanged
(edge_accessor.cpp:1039, 1141). -/
theorem edge_retarget_same_gid_noop (txid : Nat) (pon : Bool) (edge : Edge)
    (st : Store) (etype : EdgeTypeId) (fromGid toGid : Gid) :
    EdgeSetFrom txid pon edge st etype fromGid toGid fromGid = (.ok (), st) ∧
    EdgeSetTo txid pon edge st etype fromGid toGid toGid = (.ok (), st) := by
  constructor
  · rw [EdgeSetFrom]; simp
  · rw [EdgeSetTo]; simp

/-- C10: a transaction whose delta buffer is empty (no object's chain head
belongs to it) commits successfully along the read-only fast path
(edge_accessor.cpp:1241-1244): no commit timestamp is drawn (the counter is
unchanged), neither existence nor unique constraints are validated (the
result is `none` whatever those constraint sets contain), nothing is
appended to the WAL, and the only state change is marking the start
timestamp finished in the commit log. -/
theorem Commit_empty_buffer (st : MiniStorage) (tx : Txn)
    (h : modifiedVertices st tx = []) :
    Commit st tx = (none, { st with commitLog := tx.startTs :: st.commitLog }) := by
  rw [Commit, h]
  rfl

/-- Witness for C10 on a storage whose existence-constraint set would reject
the vertex if it were validated. -/
theorem Commit_empty_buffer_witness :
    Commit ⟨[⟨1, true, [0], [], [], [], []⟩], [], [(0, 5)], 10, [], []⟩ ⟨2 ^ 63, 3⟩ =
      (none, ⟨[⟨1, true, [0], [], [], [], []⟩], [], [(0, 5)], 10, [], [3]⟩) :=
  Commit_empty_buffer _ _ (by decide)

theorem PrepareForWrite_foreign (txid : Nat) (chain : List Delta) (d : Delta)
    (hd : chain.head? = some d) (h1 : isTxnId d.timestamp = true)
    (h2 : d.timestamp ≠ txid) : PrepareForWrite txid chain = false := by
  rw [PrepareForWrite, hd]
  simp [h1, h2]

/-- C3: a write on an object whose chain head is stamped with the
transaction id of a different still-active transaction fails with
`SERIALIZATION_ERROR` and leaves every part of the state unchanged;
otherwise the write proceeds by pushing a new compensating delta and
mutating in place.  Shown for `EdgeAccessor::SetProperty`
(edge_accessor.cpp:18-54) and for `CreateEdge` touching its two endpoint
vertices (edge_accessor.cpp:886-950); the `PrepareForWrite` gate itself is
modelled from the spec (§4.3), its header not being in the repository
snapshot. -/
theorem write_serialization_check :
    (∀ (txid : Nat) (e : Edge) (k : PropertyId) (v : PropertyValue) (d : Delta),
      e.delta.head? = some d → isTxnId d.timestamp = true → d.timestamp ≠ txid →
        EdgeSetProperty txid e k v = (.error .serializationError, e)) ∧
    (∀ (txid : Nat) (e : Edge) (k : PropertyId) (v : PropertyValue),
      PrepareForWrite txid e.delta = true → e.deleted = false →
        EdgeSetProperty txid e k v =
          (.ok (!hasKey e.props k),
            { e with
              delta := ⟨txid, .setProperty k (getProp e.props k)⟩ :: e.delta
              props := setProp e.props k v })) ∧
    (∀ (txid : Nat) (pon : Bool) (s : EdgeCreateState) (fromGid toGid : Gid)
        (etype : EdgeTypeId) (fromV toV : Vertex) (d : Delta),
      lookupV s.store fromGid = some fromV → lookupV s.store toGid = some toV →
      fromV.delta.head? = some d → isTxnId d.timestamp = true →
      d.timestamp ≠ txid →
        CreateEdge txid pon s fromGid toGid etype =
          (.error .serializationError, s)) ∧
    (∀ (txid : Nat) (pon : Bool) (s : EdgeCreateState) (fromGid toGid : Gid)
        (etype : EdgeTypeId) (fromV toV : Vertex),
      lookupV s.store fromGid = some fromV → lookupV s.store toGid = some toV →
      fromGid ≠ toGid →
      PrepareForWrite txid fromV.delta = true → fromV.deleted = false →
      PrepareForWrite txid toV.delta = true → toV.deleted = false →
        ∃ s₂ : EdgeCreateState,
          CreateEdge txid pon s fromGid toGid etype = (.ok s.nextEdgeId, s₂) ∧
          s₂.nextEdgeId = s.nextEdgeId + 1 ∧ s₂.edgeCount = s.edgeCount + 1 ∧
          lookupV s₂.store fromGid =
            some { fromV with
              delta := ⟨txid, .removeOutEdge etype toGid s.nextEdgeId⟩ :: fromV.delta
              outEdges := fromV.outEdges ++ [(etype, toGid, s.nextEdgeId)] } ∧
          lookupV s₂.store toGid =
            some { toV with
              delta := ⟨txid, .removeInEdge etype fromGid s.nextEdgeId⟩ :: toV.delta
              inEdges := toV.inEdges ++ [(etype, fromGid, s.nextEdgeId)] }) := by
  refine ⟨?_, ?_, ?_, ?_⟩
  · intro txid e k v d hd h1 h2
    rw [EdgeSetProperty, PrepareForWrite_foreign txid e.delta d hd h1 h2]
    rfl
  · intro txid e k v h1 h2
    rw [EdgeSetProperty, h1]
    simp [h2, CreateAndLinkDelta]
  · intro txid pon s fromGid toGid etype fromV toV d hfrom hto hd h1 h2
    simp only [CreateEdge, hfrom, hto]
    rw [PrepareForWrite_foreign txid fromV.delta d hd h1 h2]
    rfl
  · intro txid pon s fromGid toGid etype fromV toV hfrom hto hne h1 h2 h3 h4
    have hgid1 : ∀ v : Vertex,
        ({ v with
            delta := CreateAndLinkDelta txid v.delta
              (.removeOutEdge etype toGid s.nextEdgeId)
            outEdges := v.outEdges ++ [(etype, toGid, s.nextEdgeId)] } :
          Vertex).gid = v.gid := fun v => rfl
    have hgid2 : ∀ v : Vertex,
        ({ v with
            delta := CreateAndLinkDelta txid v.delta
              (.removeInEdge etype fromGid s.nextEdgeId)
            inEdges := v.inEdges ++ [(etype, fromGid, s.nextEdgeId)] } :
          Vertex).gid = v.gid := fun v => rfl
    have hres : CreateEdge txid pon s fromGid toGid etype =
        (.ok s.nextEdgeId,
          ⟨updateV (updateV s.store fromGid fun v =>
              { v with delta := CreateAndLinkDelta txid v.delta (.removeOutEdge etype toGid s.nextEdgeId), outEdges := v.outEdges ++ [(etype, toGid, s.nextEdgeId)] })
            toGid fun v =>
              { v with delta := CreateAndLinkDelta txid v.delta (.removeInEdge etype fromGid s.nextEdgeId), inEdges := v.inEdges ++ [(etype, fromGid, s.nextEdgeId)] },
            (if pon then s.edges ++ [⟨s.nextEdgeId, false, [], [⟨txid, .deleteObject⟩]⟩] else s.edges),
            s.nextEdgeId + 1, s.edgeCount + 1⟩) := by
      simp only [CreateEdge, hfrom, hto]
      rw [h1, h3]
      simp [h2, h4, hne]
    refine ⟨_, hres, rfl, rfl, ?_, ?_⟩
    · rw [lookupV_updateV_ne _ toGid fromGid _ hgid2 hne]
      rw [lookupV_updateV_same _ fromGid _ hgid1 fromV hfrom]
      rfl
    · rw [lookupV_updateV_same _ toGid _ hgid2 toV]
      · rfl
      · rw [lookupV_updateV_ne _ fromGid toGid _ hgid1 (Ne.symm hne)]
        exact hto

/-- Witness for C3: a foreign-transaction head delta makes `SetProperty` and
`CreateEdge` fail with `SERIALIZATION_ERROR` leaving the state unchanged,
while a committed head lets them proceed. -/
theorem write_serialization_check_witness :
    EdgeSetProperty (2 ^ 63) ⟨7, false, [], [⟨2 ^ 63 + 1, .recreateObject⟩]⟩ 1 (.intv 5) =
      (.error .serializationError, ⟨7, false, [], [⟨2 ^ 63 + 1, .recreateObject⟩]⟩) ∧
    EdgeSetProperty (2 ^ 63) ⟨7, false, [(1, .intv 2)], [⟨5, .recreateObject⟩]⟩ 1 (.intv 9) =
      (.ok false, ⟨7, false, [(1, .intv 9)],
        [⟨2 ^ 63, .setProperty 1 (.intv 2)⟩, ⟨5, .recreateObject⟩]⟩) ∧
    CreateEdge (2 ^ 63) true
      ⟨[⟨1, false, [], [], [], [], [⟨2 ^ 63 + 1, .recreateObject⟩]⟩,
        ⟨2, false, [], [], [], [], []⟩], [], 100, 0⟩ 1 2 0 =
      (.error .serializationError,
        ⟨[⟨1, false, [], [], [], [], [⟨2 ^ 63 + 1, .recreateObject⟩]⟩,
          ⟨2, false, [], [], [], [], []⟩], [], 100, 0⟩) ∧
    (CreateEdge (2 ^ 63) true
      ⟨[⟨1, false, [], [], [], [], []⟩, ⟨2, false, [], [], [], [], []⟩],
        [], 100, 0⟩ 1 2 0).1 = .ok 100 := by
  refine ⟨?_, ?_, ?_, ?_⟩
  · exact write_serialization_check.1 (2 ^ 63) _ 1 (.intv 5)
      ⟨2 ^ 63 + 1, .recreateObject⟩ rfl (by decide) (by decide)
  · exact write_serialization_check.2.1 (2 ^ 63) _ 1 (.intv 9) rfl rfl
  · exact write_serialization_check.2.2.1 (2 ^ 63) true _ 1 2 0
      ⟨1, false, [], [], [], [], [⟨2 ^ 63 + 1, .recreateObject⟩]⟩
      ⟨2, false, [], [], [], [], []⟩
      ⟨2 ^ 63 + 1, .recreateObject⟩ rfl rfl rfl (by decide) (by decide)
  · obtain ⟨s₂, h1, h2, h3, h4, h5⟩ :=
      write_serialization_check.2.2.2 (2 ^ 63) true
        ⟨[⟨1, false, [], [], [], [], []⟩, ⟨2, false, [], [], [], [], []⟩],
          [], 100, 0⟩ 1 2 0
        ⟨1, false, [], [], [], [], []⟩ ⟨2, false, [], [], [], [], []⟩
        rfl rfl (by decide) rfl rfl rfl rfl
    rw [h1]

theorem scanForViolation_spec (label : LabelId) (props : List PropertyId)
    (vs : List Vertex) :
    ∀ acc : List ConstraintEntry,
      (acc.map (fun e => e.values)).Nodup →
      ((scanForViolation label props vs acc).1 = true ↔
        ¬ ((acc.map (fun e => e.values)) ++ qualValues label props vs).Nodup) := by
  induction vs with
  | nil =>
    intro acc hnd
    simp [scanForViolation, qualValues, hnd]
  | cons v vs ih =>
    intro acc hnd
    by_cases hq : v.deleted = false ∧ label ∈ v.labels
    · cases hex : ExtractPropertyValues v.props props with
      | none =>
        rw [show scanForViolation label props (v :: vs) acc =
            scanForViolation label props vs acc by
          simp [scanForViolation, hq, hex]]
        rw [show qualValues label props (v :: vs) = qualValues label props vs by
          simp [qualValues, List.filterMap_cons, hq, hex]]
        exact ih acc hnd
      | some values =>
        have hqv : qualValues label props (v :: vs) =
            values :: qualValues label props vs := by
          simp [qualValues, List.filterMap_cons, hq, hex]
        by_cases hmem : (acc.any fun e => e.values == values) = true
        · have hs : (scanForViolation label props (v :: vs) acc).1 = true := by
            simp [scanForViolation, hq, hex, hmem]
          rw [hs, hqv]
          have hvmem : values ∈ acc.map (fun e => e.values) := by
            simp only [List.any_eq_true, beq_iff_eq] at hmem
            obtain ⟨e, he, hev⟩ := hmem
            exact List.mem_map.mpr ⟨e, he, hev⟩
          simp only [true_iff]
          intro hdup
          rcases List.nodup_append.mp hdup with ⟨_, _, hdisj⟩
          exact hdisj hvmem (List.mem_cons_self _ _)
        · have hs : scanForViolation label props (v :: vs) acc =
              scanForViolation label props vs (acc ++ [⟨values, v, 0⟩]) := by
            simp [scanForViolation, hq, hex, hmem]
          have hvnot : values ∉ acc.map (fun e => e.values) := by
            intro hc
            rcases List.mem_map.mp hc with ⟨e, he, hev⟩
            exact hmem (List.any_eq_true.mpr ⟨e, he, beq_iff_eq.mpr hev⟩)
          have hnd2 : (((acc ++ [⟨values, v, 0⟩]) :
              List ConstraintEntry).map (fun e => e.values)).Nodup := by
            rw [List.map_append]
            simp only [List.map_cons, List.map_nil]
            rw [List.nodup_append]
            refine ⟨hnd, List.nodup_singleton values, ?_⟩
            intro a ha hb
            rw [List.mem_singleton] at hb
            exact hvnot (hb ▸ ha)
          rw [hs, hqv]
          have hih := ih (acc ++ [⟨values, v, 0⟩]) hnd2
          rw [List.map_append, List.append_assoc] at hih
          exact hih
    · rw [show scanForViolation label props (v :: vs) acc =
          scanForViolation label props vs acc by
        simp only [scanForViolation, if_neg hq]]
      rw [show qualValues label props (v :: vs) = qualValues label props vs by
        simp [qualValues, List.filterMap_cons, hq]]
      exact ih acc hnd

/-- C6: `CreateUniqueConstraint(label, properties)` rejects an empty
property set (`EMPTY_PROPERTIES`) and one beyond the fixed maximum of 4
(`PROPERTIES_SIZE_LIMIT_EXCEEDED`) without registering anything; otherwise
(for a not-yet-registered key) the vertex scan returns a unique-constraint
violation exactly when two scanned vertices — non-deleted, carrying the
label and all the properties — share the same property-value tuple, and in
that case the partially built storage is removed, leaving the constraint
set unchanged (edge_accessor.cpp:429-483). -/
theorem create_unique_constraint_spec :
    (∀ (ucs : List UniqueConstraint) (label : LabelId) (vertices : List Vertex),
      CreateConstraint ucs label [] vertices = (.emptyProperties, ucs)) ∧
    (∀ (ucs : List UniqueConstraint) (label : LabelId) (props : List PropertyId)
        (vertices : List Vertex),
      kUniqueConstraintsMaxProperties < props.length →
      CreateConstraint ucs label props vertices =
        (.propertiesSizeLimitExceeded, ucs)) ∧
    (∀ (ucs : List UniqueConstraint) (label : LabelId) (props : List PropertyId)
        (vertices : List Vertex),
      props ≠ [] → props.length ≤ kUniqueConstraintsMaxProperties →
      (ucs.any fun c => c.label == label && c.props == props) = false →
      ((CreateConstraint ucs label props vertices).1 = .violation label props ↔
        ¬ (qualValues label props vertices).Nodup) ∧
      (¬ (qualValues label props vertices).Nodup →
        CreateConstraint ucs label props vertices = (.violation label props, ucs))) := by
  refine ⟨?_, ?_, ?_⟩
  · intro ucs label vertices
    rw [CreateConstraint]
    rfl
  · intro ucs label props vertices hlen
    have hne : props.isEmpty = false := by
      cases props with
      | nil => simp [kUniqueConstraintsMaxProperties] at hlen
      | cons a l => rfl
    rw [CreateConstraint, hne]
    simp [hlen]
  · intro ucs label props vertices hne hlen hreg
    have hne2 : props.isEmpty = false := by
      cases props with
      | nil => exact absurd rfl hne
      | cons a l => rfl
    have hnlt : ¬ kUniqueConstraintsMaxProperties < props.length :=
      Nat.not_lt.mpr hlen
    have hiff := scanForViolation_spec label props vertices [] (by simp)
    rcases hscan : scanForViolation label props vertices [] with ⟨b, acc⟩
    rw [hscan] at hiff
    have hred : CreateConstraint ucs label props vertices =
        (if b then (.violation label props, ucs)
         else (.success, ucs ++ [⟨label, props, acc⟩])) := by
      rw [CreateConstraint, hne2]
      simp only [Bool.false_eq_true, if_false, if_neg hnlt, hreg,
        Bool.false_eq_true, if_false, hscan]
      cases b <;> rfl
    simp only [List.map_nil, List.nil_append] at hiff
    constructor
    · rw [hred]
      cases b with
      | true => simpa using hiff
      | false =>
        simp only [if_false, Bool.false_eq_true]
        constructor
        · intro hc
          exact absurd hc (by simp)
        · intro hdup
          exact absurd hdup (by simpa using (not_iff_not.mpr hiff).mp (by simp))
    · intro hdup
      rw [hred]
      have hb : b = true := hiff.mpr hdup
      rw [hb]
      rfl

/-- Witness for C6: an empty property set, a five-property set, and a
duplicate value tuple among two labelled vertices. -/
theorem create_unique_constraint_spec_witness :
    CreateConstraint [] 0 [] [] = (.emptyProperties, []) ∧
    CreateConstraint [] 0 [1, 2, 3, 4, 5] [] = (.propertiesSizeLimitExceeded, []) ∧
    CreateConstraint [] 0 [1]
      [⟨1, false, [0], [(1, .intv 7)], [], [], []⟩,
        ⟨2, false, [0], [(1, .intv 7)], [], [], []⟩] =
      (.violation 0 [1], []) := by
  refine ⟨create_unique_constraint_spec.1 [] 0 [],
    create_unique_constraint_spec.2.1 [] 0 _ [] (by decide), ?_⟩
  exact (create_unique_constraint_spec.2.2 [] 0 [1] _ (by decide) (by decide)
    (by decide)).2 (by decide)

theorem mem_takeWhile_le_iff (key : α → Nat) (bound : Nat) (l : List α)
    (hs : List.Pairwise (fun a b => key a ≤ key b) l) (x : α) :
    x ∈ l.takeWhile (fun a => key a ≤ bound) ↔ x ∈ l ∧ key x ≤ bound := by
  induction l with
  | nil => simp
  | cons a l ih =>
    rw [List.pairwise_cons] at hs
    by_cases hp : key a ≤ bound
    · rw [show (a :: l).takeWhile (fun a => decide (key a ≤ bound)) =
          a :: l.takeWhile (fun a => decide (key a ≤ bound)) by
        simp [List.takeWhile_cons, hp]]
      simp only [List.mem_cons, ih hs.2]
      constructor
      · rintro (h | ⟨h1, h2⟩)
        · exact ⟨Or.inl h, h ▸ hp⟩
        · exact ⟨Or.inr h1, h2⟩
      · rintro ⟨h1 | h1, h2⟩
        · exact Or.inl h1
        · exact Or.inr ⟨h1, h2⟩
    · rw [show (a :: l).takeWhile (fun a => decide (key a ≤ bound)) = [] by
        simp [List.takeWhile_cons, hp]]
      simp only [List.not_mem_nil, false_iff, not_and]
      intro hmem hle
      rcases List.mem_cons.mp hmem with h | h
      · exact hp (h ▸ hle)
      · exact hp (Nat.le_trans (hs.1 x h) hle)

/-- C5 (counterexample): the claim says an unlinked undo buffer is freed
only once its mark timestamp is strictly older than the oldest active start
timestamp; the source frees while `front.first <= oldest` — a buffer whose
mark equals the oldest active start timestamp is freed
(edge_accessor.cpp:2030). -/
theorem gc_free_at_oldest_counterexample :
    (5, ([] : List Delta)) ∈ (CollectGarbage 5 ⟨[], [(5, [])], 9⟩).freed ∧
      ¬ (5 < 5) := by
  constructor
  · rw [show (CollectGarbage 5 ⟨[], [(5, [])], 9⟩).freed = [(5, [])] from rfl]
    exact List.mem_singleton.mpr rfl
  · decide

/-- C5 (amended): in a garbage-collection pass, a committed transaction's
deltas are unlinked only if its commit timestamp is strictly below the
oldest active start timestamp reported by the commit log (the unlinked
transactions are a prefix of the committed list, everything else stays);
an unlinked undo buffer is freed exactly when its mark timestamp is at most
(not strictly below) the oldest active start timestamp
(edge_accessor.cpp:1856-1984, 2020-2038). -/
theorem gc_unlink_and_free (oldest : Nat) (st : GCState)
    (hsorted : List.Pairwise (fun a b => a.1 ≤ b.1) st.garbage)
    (hbound : ∀ b ∈ st.garbage, b.1 ≤ st.timestamp) :
    (∀ t ∈ (CollectGarbage oldest st).unlinked, t.commitTs < oldest) ∧
    (CollectGarbage oldest st).unlinked ++
      (CollectGarbage oldest st).state.committed = st.committed ∧
    (∀ b, b ∈ (CollectGarbage oldest st).freed ↔
      b ∈ st.garbage ++
          (((CollectGarbage oldest st).unlinked).map fun t =>
            (st.timestamp, t.buffer)) ∧
        b.1 ≤ oldest) := by
  refine ⟨?_, ?_, ?_⟩
  · intro t ht
    have := List.mem_takeWhile_imp ht
    exact of_decide_eq_true this
  · exact List.takeWhile_append_dropWhile _ _
  · intro b
    have hs1 : List.Pairwise (fun a b : Nat × List Delta => a.1 ≤ b.1)
        (st.garbage ++
          (((CollectGarbage oldest st).unlinked).map fun t =>
            (st.timestamp, t.buffer))) := by
      rw [List.pairwise_append]
      refine ⟨hsorted, ?_, ?_⟩
      · rw [List.pairwise_map]
        exact List.pairwise_of_forall fun _ _ => Nat.le_refl _
      · intro a ha b hb
        rcases List.mem_map.mp hb with ⟨t, _, hbt⟩
        rw [← hbt]
        exact hbound a ha
    exact mem_takeWhile_le_iff (fun a => a.1) oldest _ hs1 b

/-- Witness for C5 (amended) on a state with one old and one still-needed
committed transaction and two garbage buffers. -/
theorem gc_unlink_and_free_witness :
    (CollectGarbage 5 ⟨[⟨3, []⟩, ⟨7, []⟩], [(2, []), (4, [])], 9⟩).unlinked ++
      (CollectGarbage 5 ⟨[⟨3, []⟩, ⟨7, []⟩], [(2, []), (4, [])], 9⟩).state.committed =
      [⟨3, []⟩, ⟨7, []⟩] ∧
    ((4, ([] : List Delta)) ∈
        (CollectGarbage 5 ⟨[⟨3, []⟩, ⟨7, []⟩], [(2, []), (4, [])], 9⟩).freed ↔
      (4, ([] : List Delta)) ∈
          [(2, ([] : List Delta)), (4, [])] ++
            (((CollectGarbage 5
                ⟨[⟨3, []⟩, ⟨7, []⟩], [(2, []), (4, [])], 9⟩).unlinked).map fun t =>
              (9, t.buffer)) ∧
        4 ≤ 5) :=
  ⟨(gc_unlink_and_free 5 ⟨[⟨3, []⟩, ⟨7, []⟩], [(2, []), (4, [])], 9⟩
      (by decide) (by decide)).2.1,
    (gc_unlink_and_free 5 ⟨[⟨3, []⟩, ⟨7, []⟩], [(2, []), (4, [])], 9⟩
      (by decide) (by decide)).2.2 (4, [])⟩

theorem mem_emitPass (objs : List TxnObject) (isV : Bool)
    (f : DeltaAction → Bool) (ts : Nat) (r : WalRecord) :
    r ∈ emitPass objs isV f ts ↔
      ∃ o ∈ objs, o.isVertex = isV ∧ ∃ a ∈ o.chron, f a = true ∧
        r = if isV then WalRecord.vRec ts o.gid a else WalRecord.eRec ts o.gid a := by
  unfold emitPass
  rw [List.mem_flatMap]
  constructor
  · rintro ⟨o, ho, hr⟩
    by_cases hv : o.isVertex = isV
    · rw [if_pos hv, List.mem_map] at hr
      obtain ⟨a, ha, hra⟩ := hr
      rw [List.mem_filter] at ha
      exact ⟨o, ho, hv, a, ha.1, ha.2, hra.symm⟩
    · rw [if_neg hv] at hr
      exact absurd hr (List.not_mem_nil r)
  · rintro ⟨o, ho, hv, a, ha, hfa, hra⟩
    refine ⟨o, ho, ?_⟩
    rw [if_pos hv, List.mem_map]
    exact ⟨a, List.mem_filter.mpr ⟨ha, hfa⟩, hra.symm⟩

theorem chain'_rank_const (f : α → Nat) (c : Nat) (l : List α)
    (h : ∀ x ∈ l, f x = c) : List.Chain' (fun a b => f a ≤ f b) l :=
  (List.pairwise_of_forall_mem_list fun a ha b hb => by
    rw [h a ha, h b hb]).chain'

theorem chain'_rank_append (f : α → Nat) (c : Nat) (l₁ l₂ : List α)
    (h₁ : List.Chain' (fun a b => f a ≤ f b) l₁)
    (h₂ : List.Chain' (fun a b => f a ≤ f b) l₂)
    (hb : ∀ x ∈ l₁, f x ≤ c) (hc : ∀ y ∈ l₂, c ≤ f y) :
    List.Chain' (fun a b => f a ≤ f b) (l₁ ++ l₂) := by
  rw [List.chain'_append]
  refine ⟨h₁, h₂, ?_⟩
  intro x hx y hy
  exact Nat.le_trans (hb x (List.mem_of_mem_getLast? hx))
    (hc y (List.mem_of_mem_head? hy))

/-- C4 (counterexample): a transaction that creates vertex 1, sets a
property on it and then creates vertex 2 emits the WAL group CREATE(1),
SET_PROPERTY(1), CREATE(2), TRANSACTION_END — a vertex-mutation record
precedes a vertex-creation record, so the claimed global ordering "all
vertex creations precede all vertex property/label mutations" is false.
The first pass of `AppendToWalDataManipulation` emits creations and
mutations interleaved per vertex (edge_accessor.cpp:2178-2201). -/
theorem wal_claim_order_counterexample :
    ¬ claimOrdered (AppendToWalDataManipulation
      [⟨true, 1, [.deleteObject, .setProperty 1 (.intv 7)]⟩,
        ⟨true, 2, [.deleteObject]⟩] 42) := by
  intro h
  rw [show AppendToWalDataManipulation
      [⟨true, 1, [.deleteObject, .setProperty 1 (.intv 7)]⟩,
        ⟨true, 2, [.deleteObject]⟩] 42 =
      [WalRecord.vRec 42 1 .deleteObject,
        WalRecord.vRec 42 1 (.setProperty 1 (.intv 7)),
        WalRecord.vRec 42 2 .deleteObject, WalRecord.txEnd 42] from rfl,
    claimOrdered] at h
  rcases List.chain'_cons.mp h with ⟨_, h⟩
  rcases List.chain'_cons.mp h with ⟨hbad, _⟩
  exact absurd hbad (by decide)

/-- C4 (amended): the records of a committed transaction form one
contiguous group: first the vertex creations together with the vertex
property/label mutations (for each single vertex its creation precedes its
mutations, since a creation delta can only be the oldest delta of its
chain), then all edge creations, then all edge property mutations, then all
edge deletions, then all vertex deletions, and the group is terminated by a
`TRANSACTION_END` record carrying the commit timestamp
(edge_accessor.cpp:2135-2303). -/
theorem wal_grouping (objs : List TxnObject) (finalTs : Nat)
    (hwf : ∀ o ∈ objs, ∀ a ∈ o.chron.tail,
      a ≠ DeltaAction.deleteObject ∧ a ≠ DeltaAction.deleteDeserializedObject) :
    (∀ r ∈ emitPass objs true walPass1 finalTs,
      walClass r = .vertexCreate ∨ walClass r = .vertexMutate) ∧
    (∀ r ∈ emitPass objs true walPass2 finalTs, walClass r = .edgeCreate) ∧
    (∀ r ∈ emitPass objs false walPass3 finalTs, walClass r = .edgeMutate) ∧
    (∀ r ∈ emitPass objs true walPass4 finalTs, walClass r = .edgeDelete) ∧
    (∀ r ∈ emitPass objs true walPass5 finalTs, walClass r = .vertexDelete) ∧
    (∀ o ∈ objs, ∀ a ∈ (o.chron.filter walPass1).tail,
      a ≠ DeltaAction.deleteObject ∧ a ≠ DeltaAction.deleteDeserializedObject) ∧
    (AppendToWalDataManipulation objs finalTs).getLast? =
      some (WalRecord.txEnd finalTs) ∧
    amendedOrdered (AppendToWalDataManipulation objs finalTs) := by
  have hp1 : ∀ r ∈ emitPass objs true walPass1 finalTs,
      walClass r = .vertexCreate ∨ walClass r = .vertexMutate := by
    intro r hr
    rw [mem_emitPass] at hr
    obtain ⟨o, _, _, a, _, hfa, hra⟩ := hr
    rw [hra, if_pos rfl]
    cases a <;> simp [walPass1] at hfa <;> simp [walClass]
  have hp2 : ∀ r ∈ emitPass objs true walPass2 finalTs,
      walClass r = .edgeCreate := by
    intro r hr
    rw [mem_emitPass] at hr
    obtain ⟨o, _, _, a, _, hfa, hra⟩ := hr
    rw [hra, if_pos rfl]
    cases a <;> simp [walPass2] at hfa <;> simp [walClass]
  have hp3 : ∀ r ∈ emitPass objs false walPass3 finalTs,
      walClass r = .edgeMutate := by
    intro r hr
    rw [mem_emitPass] at hr
    obtain ⟨o, _, _, a, _, hfa, hra⟩ := hr
    rw [hra, if_neg (by simp)]
    cases a <;> simp [walPass3] at hfa <;> simp [walClass]
  have hp4 : ∀ r ∈ emitPass objs true walPass4 finalTs,
      walClass r = .edgeDelete := by
    intro r hr
    rw [mem_emitPass] at hr
    obtain ⟨o, _, _, a, _, hfa, hra⟩ := hr
    rw [hra, if_pos rfl]
    cases a <;> simp [walPass4] at hfa <;> simp [walClass]
  have hp5 : ∀ r ∈ emitPass objs true walPass5 finalTs,
      walClass r = .vertexDelete := by
    intro r hr
    rw [mem_emitPass] at hr
    obtain ⟨o, _, _, a, _, hfa, hra⟩ := hr
    rw [hra, if_pos rfl]
    cases a <;> simp [walPass5] at hfa <;> simp [walClass]
  refine ⟨hp1, hp2, hp3, hp4, hp5, ?_, ?_, ?_⟩
  · intro o ho a ha
    cases hch : o.chron with
    | nil => rw [hch] at ha; exact absurd ha (by simp)
    | cons h t =>
      have htail : ∀ a ∈ t, a ≠ DeltaAction.deleteObject ∧
          a ≠ DeltaAction.deleteDeserializedObject := by
        intro a hat
        exact hwf o ho a (by rw [hch]; exact hat)
      rw [hch, List.filter_cons] at ha
      by_cases hph : walPass1 h = true
      · rw [if_pos hph] at ha
        exact htail a
          (List.mem_filter.mp (show a ∈ List.filter walPass1 t from ha)).1
      · rw [if_neg hph] at ha
        exact htail a
          (List.mem_filter.mp (List.mem_of_mem_tail ha)).1
  · rw [AppendToWalDataManipulation]
    rw [List.append_assoc, List.append_assoc, List.append_assoc,
      List.append_assoc]
    rw [← List.append_assoc, ← List.append_assoc, ← List.append_assoc,
      ← List.append_assoc]
    exact List.getLast?_concat _
  · rw [amendedOrdered, AppendToWalDataManipulation]
    have h1c : ∀ r ∈ emitPass objs true walPass1 finalTs,
        amendedRank (walClass r) = 0 := by
      intro r hr
      rcases hp1 r hr with h | h <;> rw [h] <;> rfl
    have h2c : ∀ r ∈ emitPass objs true walPass2 finalTs,
        amendedRank (walClass r) = 1 := by
      intro r hr; rw [hp2 r hr]; rfl
    have h3c : ∀ r ∈ emitPass objs false walPass3 finalTs,
        amendedRank (walClass r) = 2 := by
      intro r hr; rw [hp3 r hr]; rfl
    have h4c : ∀ r ∈ emitPass objs true walPass4 finalTs,
        amendedRank (walClass r) = 3 := by
      intro r hr; rw [hp4 r hr]; rfl
    have h5c : ∀ r ∈ emitPass objs true walPass5 finalTs,
        amendedRank (walClass r) = 4 := by
      intro r hr; rw [hp5 r hr]; rfl
    have hTc : ∀ r ∈ [WalRecord.txEnd finalTs],
        amendedRank (walClass r) = 5 := by
      intro r hr
      rw [List.mem_singleton] at hr
      rw [hr]; rfl
    rw [List.append_assoc, List.append_assoc, List.append_assoc,
      List.append_assoc]
    refine chain'_rank_append _ 1 _ _ (chain'_rank_const _ 0 _ h1c) ?_
      (fun x hx => by rw [h1c x hx]; decide) ?_
    rotate_left
    · intro y hy
      rcases List.mem_append.mp hy with h | h
      · rw [h2c y h]
      rcases List.mem_append.mp h with h | h
      · rw [h3c y h]; decide
      rcases List.mem_append.mp h with h | h
      · rw [h4c y h]; decide
      rcases List.mem_append.mp h with h | h
      · rw [h5c y h]; decide
      · rw [hTc y h]; decide
    refine chain'_rank_append _ 2 _ _ (chain'_rank_const _ 1 _ h2c) ?_
      (fun x hx => by rw [h2c x hx]; decide) ?_
    rotate_left
    · intro y hy
      rcases List.mem_append.mp hy with h | h
      · rw [h3c y h]
      rcases List.mem_append.mp h with h | h
      · rw [h4c y h]; decide
      rcases List.mem_append.mp h with h | h
      · rw [h5c y h]; decide
      · rw [hTc y h]; decide
    refine chain'_rank_append _ 3 _ _ (chain'_rank_const _ 2 _ h3c) ?_
      (fun x hx => by rw [h3c x hx]; decide) ?_
    rotate_left
    · intro y hy
      rcases List.mem_append.mp hy with h | h
      · rw [h4c y h]
      rcases List.mem_append.mp h with h | h
      · rw [h5c y h]; decide
      · rw [hTc y h]; decide
    refine chain'_rank_append _ 4 _ _ (chain'_rank_const _ 3 _ h4c) ?_
      (fun x hx => by rw [h4c x hx]; decide) ?_
    rotate_left
    · intro y hy
      rcases List.mem_append.mp hy with h | h
      · rw [h5c y h]
      · rw [hTc y h]; decide
    refine chain'_rank_append _ 5 _ _ (chain'_rank_const _ 4 _ h5c)
      (chain'_rank_const _ 5 _ hTc)
      (fun x hx => by rw [h5c x hx]; decide) ?_
    intro y hy
    rw [hTc y hy]

/-- Witness for C4 (amended) on a transaction that creates a vertex, sets a
property on it, creates an edge, modifies the edge and deletes another
vertex. -/
theorem wal_grouping_witness :
    (AppendToWalDataManipulation
        [⟨true, 1, [.deleteObject, .setProperty 1 (.intv 7), .removeOutEdge 0 2 5]⟩,
          ⟨false, 5, [.setProperty 1 (.intv 3)]⟩,
          ⟨true, 2, [.recreateObject]⟩] 42).getLast? =
      some (.txEnd 42) ∧
    amendedOrdered (AppendToWalDataManipulation
      [⟨true, 1, [.deleteObject, .setProperty 1 (.intv 7), .removeOutEdge 0 2 5]⟩,
        ⟨false, 5, [.setProperty 1 (.intv 3)]⟩,
        ⟨true, 2, [.recreateObject]⟩] 42) :=
  ⟨(wal_grouping
      [⟨true, 1, [.deleteObject, .setProperty 1 (.intv 7), .removeOutEdge 0 2 5]⟩,
        ⟨false, 5, [.setProperty 1 (.intv 3)]⟩,
        ⟨true, 2, [.recreateObject]⟩] 42 (by decide)).2.2.2.2.2.2.1,
    (wal_grouping
      [⟨true, 1, [.deleteObject, .setProperty 1 (.intv 7), .removeOutEdge 0 2 5]⟩,
        ⟨false, 5, [.setProperty 1 (.intv 3)]⟩,
        ⟨true, 2, [.recreateObject]⟩] 42 (by decide)).2.2.2.2.2.2.2⟩

theorem gid_ite_rmOut (c : Prop) [Decidable c] (en : AdjEntry) (v : Vertex) :
    (if c then rmOut en v else v).gid = v.gid := by
  by_cases h : c <;> simp [h, rmOut]

theorem gid_ite_rmIn (c : Prop) [Decidable c] (en : AdjEntry) (v : Vertex) :
    (if c then rmIn en v else v).gid = v.gid := by
  by_cases h : c <;> simp [h, rmIn]

theorem gid_ite_pushDelta (c : Prop) [Decidable c] (txid : Nat)
    (a : DeltaAction) (v : Vertex) :
    (if c then pushDelta txid a v else v).gid = v.gid := by
  by_cases h : c <;> simp [h, pushDelta]

theorem gid_ite_addOut (c : Prop) [Decidable c] (txid : Nat) (en : AdjEntry)
    (v : Vertex) : (if c then addOut txid en v else v).gid = v.gid := by
  by_cases h : c <;> simp [h, addOut]

theorem gid_ite_addIn (c : Prop) [Decidable c] (txid : Nat) (en : AdjEntry)
    (v : Vertex) : (if c then addIn txid en v else v).gid = v.gid := by
  by_cases h : c <;> simp [h, addIn]

theorem outEdges_ite_rmIn (c : Prop) [Decidable c] (en : AdjEntry) (v : Vertex) :
    (if c then rmIn en v else v).outEdges = v.outEdges := by
  by_cases h : c <;> simp [h, rmIn]

theorem outEdges_ite_pushDelta (c : Prop) [Decidable c] (txid : Nat)
    (a : DeltaAction) (v : Vertex) :
    (if c then pushDelta txid a v else v).outEdges = v.outEdges := by
  by_cases h : c <;> simp [h, pushDelta]

theorem outEdges_ite_addIn (c : Prop) [Decidable c] (txid : Nat) (en : AdjEntry)
    (v : Vertex) : (if c then addIn txid en v else v).outEdges = v.outEdges := by
  by_cases h : c <;> simp [h, addIn]

theorem inEdges_ite_rmOut (c : Prop) [Decidable c] (en : AdjEntry) (v : Vertex) :
    (if c then rmOut en v else v).inEdges = v.inEdges := by
  by_cases h : c <;> simp [h, rmOut]

theorem inEdges_ite_pushDelta (c : Prop) [Decidable c] (txid : Nat)
    (a : DeltaAction) (v : Vertex) :
    (if c then pushDelta txid a v else v).inEdges = v.inEdges := by
  by_cases h : c <;> simp [h, pushDelta]

theorem inEdges_ite_addOut (c : Prop) [Decidable c] (txid : Nat) (en : AdjEntry)
    (v : Vertex) : (if c then addOut txid en v else v).inEdges = v.inEdges := by
  by_cases h : c <;> simp [h, addOut]

theorem gid_rmOut (en : AdjEntry) (v : Vertex) : (rmOut en v).gid = v.gid := rfl

theorem gid_rmIn (en : AdjEntry) (v : Vertex) : (rmIn en v).gid = v.gid := rfl

theorem gid_pushDelta (txid : Nat) (a : DeltaAction) (v : Vertex) :
    (pushDelta txid a v).gid = v.gid := rfl

theorem gid_addOut (txid : Nat) (en : AdjEntry) (v : Vertex) :
    (addOut txid en v).gid = v.gid := rfl

theorem gid_addIn (txid : Nat) (en : AdjEntry) (v : Vertex) :
    (addIn txid en v).gid = v.gid := rfl

theorem outEdges_rmOut (en : AdjEntry) (v : Vertex) :
    (rmOut en v).outEdges = swapRemoveFirst en v.outEdges := rfl

theorem outEdges_rmIn (en : AdjEntry) (v : Vertex) :
    (rmIn en v).outEdges = v.outEdges := rfl

theorem outEdges_pushDelta (txid : Nat) (a : DeltaAction) (v : Vertex) :
    (pushDelta txid a v).outEdges = v.outEdges := rfl

theorem outEdges_addOut (txid : Nat) (en : AdjEntry) (v : Vertex) :
    (addOut txid en v).outEdges = v.outEdges ++ [en] := rfl

theorem outEdges_addIn (txid : Nat) (en : AdjEntry) (v : Vertex) :
    (addIn txid en v).outEdges = v.outEdges := rfl

theorem inEdges_rmOut (en : AdjEntry) (v : Vertex) :
    (rmOut en v).inEdges = v.inEdges := rfl

theorem inEdges_rmIn (en : AdjEntry) (v : Vertex) :
    (rmIn en v).inEdges = swapRemoveFirst en v.inEdges := rfl

theorem inEdges_pushDelta (txid : Nat) (a : DeltaAction) (v : Vertex) :
    (pushDelta txid a v).inEdges = v.inEdges := rfl

theorem inEdges_addOut (txid : Nat) (en : AdjEntry) (v : Vertex) :
    (addOut txid en v).inEdges = v.inEdges := rfl

theorem inEdges_addIn (txid : Nat) (en : AdjEntry) (v : Vertex) :
    (addIn txid en v).inEdges = v.inEdges ++ [en] := rfl

theorem filter_swapRemoveFirst_eq_nil [DecidableEq α] (p : α → Bool) (a : α)
    (xs : List α) (h : xs.filter p = [a]) :
    (swapRemoveFirst a xs).filter p = [] := by
  have hmem : a ∈ xs :=
    List.mem_of_mem_filter (h.symm ▸ List.mem_singleton_self a)
  have hpa : p a = true :=
    List.of_mem_filter (α := α) (h.symm ▸ List.mem_singleton_self a)
  have hperm2 : List.Perm ((swapRemoveFirst a xs).filter p)
      ((xs.erase a).filter p) := (swapRemoveFirst_perm_erase a xs).filter p
  have hperm3 : List.Perm (xs.filter p) (a :: (xs.erase a).filter p) := by
    have h1 : List.Perm (xs.filter p) ((a :: xs.erase a).filter p) :=
      (List.perm_cons_erase hmem).filter p
    rw [List.filter_cons, if_pos hpa] at h1
    exact h1
  rw [h] at hperm3
  have hlen : ((xs.erase a).filter p).length = 0 := by
    have hl := hperm3.length_eq
    simp only [List.length_cons, List.length_nil] at hl
    omega
  rw [List.eq_nil_of_length_eq_zero hlen] at hperm2
  exact hperm2.eq_nil

/-- C7: retargeting an edge `e : A → B` to a vertex `C` whose gid differs from
`B`'s validates non-deletion of the edge (under properties-on-edges the call
fails with DELETED_OBJECT on a deleted edge, leaving the store unchanged), and
on success removes `e`'s adjacency entry from `A.out_edges` and from
`B.in_edges` and installs the new symmetric pair, so that afterwards
`A.out_edges` contains exactly one entry for `e` and it targets `C`,
`B.in_edges` contains no entry for `e`, and `C.in_edges` contains `e`. -/
theorem edge_set_to_retarget :
    (∀ (txid : Nat) (edge : Edge) (st : Store) (etype : EdgeTypeId)
        (fromGid oldToGid newToGid : Gid),
      oldToGid ≠ newToGid →
      PrepareForWrite txid edge.delta = true →
      edge.deleted = true →
      EdgeSetTo txid true edge st etype fromGid oldToGid newToGid =
        (.error .deletedObject, st)) ∧
    (∀ (txid : Nat) (pon : Bool) (edge : Edge) (st : Store) (etype : EdgeTypeId)
        (fromGid oldToGid newToGid : Gid) (A B C : Vertex),
      lookupV st fromGid = some A →
      lookupV st oldToGid = some B →
      lookupV st newToGid = some C →
      oldToGid ≠ newToGid →
      C.deleted = false →
      PrepareForWrite txid edge.delta = true →
      edge.deleted = false →
      PrepareForWrite txid A.delta = true →
      PrepareForWrite txid B.delta = true →
      PrepareForWrite txid C.delta = true →
      A.outEdges.filter (fun en => en.2.2 == edge.gid) =
        [(etype, oldToGid, edge.gid)] →
      B.inEdges.filter (fun en => en.2.2 == edge.gid) =
        [(etype, fromGid, edge.gid)] →
      ∃ st₂,
        EdgeSetTo txid pon edge st etype fromGid oldToGid newToGid =
          (.ok (), st₂) ∧
        (∃ A₂, lookupV st₂ fromGid = some A₂ ∧
          A₂.outEdges.filter (fun en => en.2.2 == edge.gid) =
            [(etype, newToGid, edge.gid)]) ∧
        (∃ B₂, lookupV st₂ oldToGid = some B₂ ∧
          B₂.inEdges.filter (fun en => en.2.2 == edge.gid) = []) ∧
        (∃ C₂, lookupV st₂ newToGid = some C₂ ∧
          (etype, fromGid, edge.gid) ∈ C₂.inEdges)) := by
  constructor
  · intro txid edge st etype fromGid oldToGid newToGid hBC hPe hDel
    rw [EdgeSetTo, if_neg hBC]
    simp [hPe, hDel]
  · intro txid pon edge st etype fromGid oldToGid newToGid A B C hA hB hC hBC
      _hCdel hPe hDe hPA hPB hPC hout hin
    have hAgid : A.gid = fromGid := lookupV_gid st fromGid A hA
    have hBgid : B.gid = oldToGid := lookupV_gid st oldToGid B hB
    have hCgid : C.gid = newToGid := lookupV_gid st newToGid C hC
    have hCB : ¬ newToGid = oldToGid := fun h => hBC h.symm
    have hopmem : (etype, oldToGid, edge.gid) ∈ A.outEdges :=
      List.mem_of_mem_filter
        (hout.symm ▸ List.mem_singleton_self (etype, oldToGid, edge.gid))
    have hred : EdgeSetTo txid pon edge st etype fromGid oldToGid newToGid =
        (.ok (),
          updateV (updateV (updateV (updateV (updateV (updateV st fromGid
            (rmOut (etype, oldToGid, edge.gid))) oldToGid
            (rmIn (etype, fromGid, edge.gid))) fromGid
            (pushDelta txid (DeltaAction.addOutEdge etype oldToGid edge.gid)))
            oldToGid
            (pushDelta txid (DeltaAction.addInEdge etype fromGid edge.gid)))
            fromGid (addOut txid (etype, newToGid, edge.gid))) newToGid
            (addIn txid (etype, fromGid, edge.gid))) := by
      rw [EdgeSetTo, if_neg hBC]
      simp [hPe, hDe, hB, hC, hA, hPA, hPB, hPC, hopmem]
    refine ⟨_, hred, ?_, ?_, ?_⟩
    · exact ⟨_,
        by
          rw [lookupV_updateV _ newToGid fromGid
                (addIn txid (etype, fromGid, edge.gid)) (fun v => rfl),
              lookupV_updateV _ fromGid fromGid
                (addOut txid (etype, newToGid, edge.gid)) (fun v => rfl),
              lookupV_updateV _ oldToGid fromGid
                (pushDelta txid (DeltaAction.addInEdge etype fromGid edge.gid))
                (fun v => rfl),
              lookupV_updateV _ fromGid fromGid
                (pushDelta txid (DeltaAction.addOutEdge etype oldToGid edge.gid))
                (fun v => rfl),
              lookupV_updateV _ oldToGid fromGid
                (rmIn (etype, fromGid, edge.gid)) (fun v => rfl),
              lookupV_updateV st fromGid fromGid
                (rmOut (etype, oldToGid, edge.gid)) (fun v => rfl),
              hA]
          exact rfl,
        by
          simp only [Option.map_some]
          simp only [hAgid, if_true, gid_ite_rmOut, gid_ite_rmIn,
            gid_ite_pushDelta, gid_ite_addOut, gid_ite_addIn, gid_rmOut,
            gid_rmIn, gid_pushDelta, gid_addOut, gid_addIn,
            outEdges_ite_rmIn, outEdges_ite_pushDelta, outEdges_ite_addIn,
            outEdges_rmOut, outEdges_rmIn, outEdges_pushDelta,
            outEdges_addOut, outEdges_addIn]
          rw [List.filter_append,
              filter_swapRemoveFirst_eq_nil _ _ _ hout]
          simp⟩
    · exact ⟨_,
        by
          rw [lookupV_updateV _ newToGid oldToGid
                (addIn txid (etype, fromGid, edge.gid)) (fun v => rfl),
              lookupV_updateV _ fromGid oldToGid
                (addOut txid (etype, newToGid, edge.gid)) (fun v => rfl),
              lookupV_updateV _ oldToGid oldToGid
                (pushDelta txid (DeltaAction.addInEdge etype fromGid edge.gid))
                (fun v => rfl),
              lookupV_updateV _ fromGid oldToGid
                (pushDelta txid (DeltaAction.addOutEdge etype oldToGid edge.gid))
                (fun v => rfl),
              lookupV_updateV _ oldToGid oldToGid
                (rmIn (etype, fromGid, edge.gid)) (fun v => rfl),
              lookupV_updateV st fromGid oldToGid
                (rmOut (etype, oldToGid, edge.gid)) (fun v => rfl),
              hB]
          exact rfl,
        by
          simp only [Option.map_some]
          simp only [hBgid, hBC, if_true, if_false, gid_ite_rmOut,
            gid_ite_rmIn, gid_ite_pushDelta, gid_ite_addOut, gid_ite_addIn,
            gid_rmOut, gid_rmIn, gid_pushDelta, gid_addOut, gid_addIn,
            inEdges_ite_rmOut, inEdges_ite_pushDelta, inEdges_ite_addOut,
            inEdges_rmOut, inEdges_rmIn, inEdges_pushDelta, inEdges_addOut,
            inEdges_addIn]
          exact filter_swapRemoveFirst_eq_nil _ _ _ hin⟩
    · exact ⟨_,
        by
          rw [lookupV_updateV _ newToGid newToGid
                (addIn txid (etype, fromGid, edge.gid)) (fun v => rfl),
              lookupV_updateV _ fromGid newToGid
                (addOut txid (etype, newToGid, edge.gid)) (fun v => rfl),
              lookupV_updateV _ oldToGid newToGid
                (pushDelta txid (DeltaAction.addInEdge etype fromGid edge.gid))
                (fun v => rfl),
              lookupV_updateV _ fromGid newToGid
                (pushDelta txid (DeltaAction.addOutEdge etype oldToGid edge.gid))
                (fun v => rfl),
              lookupV_updateV _ oldToGid newToGid
                (rmIn (etype, fromGid, edge.gid)) (fun v => rfl),
              lookupV_updateV st fromGid newToGid
                (rmOut (etype, oldToGid, edge.gid)) (fun v => rfl),
              hC]
          exact rfl,
        by
          simp only [Option.map_some]
          simp only [hCgid, hCB, if_true, if_false, gid_ite_rmOut,
            gid_ite_rmIn, gid_ite_pushDelta, gid_ite_addOut, gid_ite_addIn,
            gid_rmOut, gid_rmIn, gid_pushDelta, gid_addOut, gid_addIn,
            inEdges_ite_rmOut, inEdges_ite_pushDelta, inEdges_ite_addOut,
            inEdges_rmOut, inEdges_rmIn, inEdges_pushDelta, inEdges_addOut,
            inEdges_addIn]
          exact List.mem_append_right _ (List.mem_singleton_self _)⟩

/-- Witness for C7: a concrete three-vertex store with an edge `7 : 1 → 2`
retargeted to vertex `3`, and a concrete deleted edge rejected under
properties-on-edges. -/
theorem edge_set_to_retarget_witness :
    (EdgeSetTo 9 true ⟨7, true, [], []⟩
        [⟨1, false, [], [], [], [(5, 2, 7)], []⟩,
         ⟨2, false, [], [], [(5, 1, 7)], [], []⟩,
         ⟨3, false, [], [], [], [], []⟩] 5 1 2 3 =
      (.error .deletedObject,
        [⟨1, false, [], [], [], [(5, 2, 7)], []⟩,
         ⟨2, false, [], [], [(5, 1, 7)], [], []⟩,
         ⟨3, false, [], [], [], [], []⟩])) ∧
    (∃ st₂,
      EdgeSetTo 9 true ⟨7, false, [], []⟩
          [⟨1, false, [], [], [], [(5, 2, 7)], []⟩,
           ⟨2, false, [], [], [(5, 1, 7)], [], []⟩,
           ⟨3, false, [], [], [], [], []⟩] 5 1 2 3 =
        (.ok (), st₂) ∧
      (∃ A₂, lookupV st₂ 1 = some A₂ ∧
        A₂.outEdges.filter (fun en => en.2.2 == (7 : Gid)) = [(5, 3, 7)]) ∧
      (∃ B₂, lookupV st₂ 2 = some B₂ ∧
        B₂.inEdges.filter (fun en => en.2.2 == (7 : Gid)) = []) ∧
      (∃ C₂, lookupV st₂ 3 = some C₂ ∧ ((5 : EdgeTypeId), (1 : Gid), (7 : Gid)) ∈ C₂.inEdges)) := by
  constructor
  · exact edge_set_to_retarget.1 9 ⟨7, true, [], []⟩
      [⟨1, false, [], [], [], [(5, 2, 7)], []⟩,
       ⟨2, false, [], [], [(5, 1, 7)], [], []⟩,
       ⟨3, false, [], [], [], [], []⟩] 5 1 2 3
      (by decide) (by decide) rfl
  · exact edge_set_to_retarget.2 9 true ⟨7, false, [], []⟩
      [⟨1, false, [], [], [], [(5, 2, 7)], []⟩,
       ⟨2, false, [], [], [(5, 1, 7)], [], []⟩,
       ⟨3, false, [], [], [], [], []⟩] 5 1 2 3
      ⟨1, false, [], [], [], [(5, 2, 7)], []⟩
      ⟨2, false, [], [], [(5, 1, 7)], [], []⟩
      ⟨3, false, [], [], [], [], []⟩
      rfl rfl rfl (by decide) rfl rfl rfl rfl rfl rfl (by decide) (by decide)

theorem vertexEquiv_refl (v : Vertex) : VertexEquiv v v :=
  ⟨rfl, rfl, rfl, rfl, rfl, rfl, rfl⟩

theorem vertexEquiv_trans {u v w : Vertex} (h1 : VertexEquiv u v)
    (h2 : VertexEquiv v w) : VertexEquiv u w := by
  obtain ⟨a1, a2, a3, a4, a5, a6, a7⟩ := h1
  obtain ⟨b1, b2, b3, b4, b5, b6, b7⟩ := h2
  exact ⟨a1.trans b1, a2.trans b2, a3.trans b3, a4.trans b4, a5.trans b5,
    a6.trans b6, a7.trans b7⟩

theorem undo_cong (v w : Vertex) (h : SameData v w) (a : DeltaAction) :
    SameData (undoVertexDelta v a) (undoVertexDelta w a) := by
  obtain ⟨h1, h2, h3, h4, h5, h6⟩ := h
  cases a with
  | removeLabel l =>
      exact ⟨h1, h2, h3,
        by simp only [undoVertexDelta]
           rw [swapRemoveFirst_coe, swapRemoveFirst_coe, h4], h5, h6⟩
  | addLabel l =>
      exact ⟨h1, h2, h3,
        by simp only [undoVertexDelta]
           rw [append_singleton_coe, append_singleton_coe, h4], h5, h6⟩
  | setProperty k val =>
      exact ⟨h1, h2, by simp only [undoVertexDelta]; rw [h3], h4, h5, h6⟩
  | addInEdge t x e =>
      exact ⟨h1, h2, h3, h4,
        by simp only [undoVertexDelta]
           rw [append_singleton_coe, append_singleton_coe, h5], h6⟩
  | addOutEdge t x e =>
      exact ⟨h1, h2, h3, h4, h5,
        by simp only [undoVertexDelta]
           rw [append_singleton_coe, append_singleton_coe, h6]⟩
  | removeInEdge t x e =>
      exact ⟨h1, h2, h3, h4,
        by simp only [undoVertexDelta]
           rw [swapRemoveFirst_coe, swapRemoveFirst_coe, h5], h6⟩
  | removeOutEdge t x e =>
      exact ⟨h1, h2, h3, h4, h5,
        by simp only [undoVertexDelta]
           rw [swapRemoveFirst_coe, swapRemoveFirst_coe, h6]⟩
  | deleteObject => exact ⟨h1, rfl, h3, h4, h5, h6⟩
  | deleteDeserializedObject => exact ⟨h1, rfl, h3, h4, h5, h6⟩
  | recreateObject => exact ⟨h1, rfl, h3, h4, h5, h6⟩

theorem foldl_undo_cong (ds : List Delta) (v w : Vertex) (h : SameData v w) :
    SameData (ds.foldl (fun acc d => undoVertexDelta acc d.action) v)
      (ds.foldl (fun acc d => undoVertexDelta acc d.action) w) := by
  induction ds generalizing v w with
  | nil => exact h
  | cons d ds ih => exact ih _ _ (undo_cong _ _ h d.action)

theorem undo_applyWrite (txid : Nat) (v : Vertex) (op : WriteOp)
    (hop : validOp v op) (hwf : PropsWF v.props) :
    SameData (undoVertexDelta (applyWrite txid v op) (compDelta v op)) v := by
  cases op with
  | addLabel l =>
      exact ⟨rfl, rfl, rfl, swapRemoveFirst_append_cancel l v.labels hop,
        rfl, rfl⟩
  | removeLabel l =>
      exact ⟨rfl, rfl, rfl, append_swapRemoveFirst_cancel l v.labels hop,
        rfl, rfl⟩
  | setProp k val =>
      exact ⟨rfl, rfl, setProp_restore v.props k val hwf, rfl, rfl, rfl⟩
  | addInEdge t x e =>
      exact ⟨rfl, rfl, rfl, rfl,
        swapRemoveFirst_append_cancel (t, x, e) v.inEdges hop, rfl⟩
  | addOutEdge t x e =>
      exact ⟨rfl, rfl, rfl, rfl, rfl,
        swapRemoveFirst_append_cancel (t, x, e) v.outEdges hop⟩
  | removeInEdge t x e =>
      exact ⟨rfl, rfl, rfl, rfl,
        append_swapRemoveFirst_cancel (t, x, e) v.inEdges hop, rfl⟩
  | removeOutEdge t x e =>
      exact ⟨rfl, rfl, rfl, rfl, rfl,
        append_swapRemoveFirst_cancel (t, x, e) v.outEdges hop⟩
  | deleteVertex => exact ⟨rfl, hop.symm, rfl, rfl, rfl, rfl⟩

theorem applyWrite_props_WF (txid : Nat) (v : Vertex) (op : WriteOp)
    (h : PropsWF v.props) : PropsWF (applyWrite txid v op).props := by
  cases op
  case setProp k val => exact setProp_WF _ _ _ h
  all_goals exact h

theorem abort_applyWrite (txid : Nat) (v : Vertex) (op : WriteOp)
    (hop : validOp v op) (hwf : PropsWF v.props) :
    VertexEquiv (AbortVertex txid (applyWrite txid v op))
      (AbortVertex txid v) := by
  have hp : ((⟨txid, compDelta v op⟩ : Delta).timestamp == txid) = true :=
    beq_self_eq_true txid
  have hdelta : (applyWrite txid v op).delta =
      ⟨txid, compDelta v op⟩ :: v.delta := rfl
  simp only [AbortVertex, hdelta, List.takeWhile_cons, List.dropWhile_cons,
    hp, if_true, List.foldl_cons]
  have hsd := foldl_undo_cong
    (v.delta.takeWhile (fun d => d.timestamp == txid)) _ _
    (undo_applyWrite txid v op hop hwf)
  obtain ⟨s1, s2, s3, s4, s5, s6⟩ := hsd
  exact ⟨s1, s2, s3, s4, s5, s6, rfl⟩

theorem abort_applyWrites (txid : Nat) (v : Vertex) (ops : List WriteOp)
    (hv : ValidOps txid v ops) (hwf : PropsWF v.props) :
    VertexEquiv (AbortVertex txid (applyWrites txid v ops))
      (AbortVertex txid v) := by
  induction ops generalizing v with
  | nil => exact vertexEquiv_refl _
  | cons op rest ih =>
      obtain ⟨hop, hrest⟩ := hv
      exact vertexEquiv_trans
        (ih (applyWrite txid v op) hrest (applyWrite_props_WF txid v op hwf))
        (abort_applyWrite txid v op hop hwf)

theorem takeWhile_eq_nil_of_all (p : α → Bool) (l : List α)
    (h : ∀ a ∈ l, p a = false) : l.takeWhile p = [] := by
  cases l with
  | nil => rfl
  | cons a l => simp [List.takeWhile_cons, h a (List.mem_cons_self _ _)]

theorem dropWhile_eq_self_of_all (p : α → Bool) (l : List α)
    (h : ∀ a ∈ l, p a = false) : l.dropWhile p = l := by
  cases l with
  | nil => rfl
  | cons a l => simp [List.dropWhile_cons, h a (List.mem_cons_self _ _)]

theorem abort_foreign (txid : Nat) (v : Vertex)
    (h : ∀ d ∈ v.delta, (d.timestamp == txid) = false) :
    AbortVertex txid v = v := by
  simp only [AbortVertex,
    takeWhile_eq_nil_of_all (fun d => d.timestamp == txid) v.delta h,
    dropWhile_eq_self_of_all (fun d => d.timestamp == txid) v.delta h,
    List.foldl_nil]

/-- C2: aborting a transaction undoes every forward mutation.  (a) On a
vertex whose chain holds no foreign-stamped leftovers of this transaction,
replaying any legal sequence of writes (labels, properties, adjacency,
deletion) and then running the vertex branch of `Abort` restores the
original observable state and re-exposes the original chain head, so no
later transaction sees any of the writes.  (b) A vertex created by this
transaction is re-marked deleted with an empty chain.  (c) An edge property
write followed by the edge branch of `Abort` restores the edge exactly. -/
theorem abort_undoes_all_writes :
    (∀ (txid : Nat) (v : Vertex) (ops : List WriteOp),
      ValidOps txid v ops → PropsWF v.props →
      (∀ d ∈ v.delta, (d.timestamp == txid) = false) →
      VertexEquiv (AbortVertex txid (applyWrites txid v ops)) v) ∧
    (∀ (txid : Nat) (gid : Gid) (ops : List WriteOp),
      ValidOps txid (newVertex gid txid) ops →
      (AbortVertex txid (applyWrites txid (newVertex gid txid) ops)).deleted
          = true ∧
      (AbortVertex txid (applyWrites txid (newVertex gid txid) ops)).delta
          = []) ∧
    (∀ (txid : Nat) (e : Edge) (k : PropertyId) (val : PropertyValue)
        (r : Bool) (e' : Edge),
      PropsWF e.props →
      (∀ d ∈ e.delta, (d.timestamp == txid) = false) →
      EdgeSetProperty txid e k val = (.ok r, e') →
      AbortEdge txid e' = e) := by
  refine ⟨?_, ?_, ?_⟩
  · intro txid v ops hv hwf hforeign
    have h1 := abort_applyWrites txid v ops hv hwf
    rw [abort_foreign txid v hforeign] at h1
    exact h1
  · intro txid gid ops hv
    have hwf : PropsWF (newVertex gid txid).props :=
      ⟨List.Pairwise.nil, fun p hp => absurd hp (List.not_mem_nil p)⟩
    have h1 := abort_applyWrites txid (newVertex gid txid) ops hv hwf
    have hnv : AbortVertex txid (newVertex gid txid) =
        ⟨gid, true, [], [], [], [], []⟩ := by
      simp [AbortVertex, newVertex, undoVertexDelta]
    rw [hnv] at h1
    obtain ⟨_, h2, _, _, _, _, h7⟩ := h1
    exact ⟨h2, h7⟩
  · intro txid e k val r e' hwf hforeign hEq
    cases hP : PrepareForWrite txid e.delta with
    | false => simp [EdgeSetProperty, hP] at hEq
    | true =>
      cases hD : e.deleted with
      | true => simp [EdgeSetProperty, hP, hD] at hEq
      | false =>
        simp only [EdgeSetProperty, hP, Bool.not_true, Bool.false_eq_true,
          if_false, hD, Prod.mk.injEq] at hEq
        obtain ⟨_, he'⟩ := hEq
        subst he'
        have hp : ((⟨txid, DeltaAction.setProperty k (getProp e.props k)⟩ :
            Delta).timestamp == txid) = true := beq_self_eq_true txid
        simp only [AbortEdge, CreateAndLinkDelta, List.takeWhile_cons,
          List.dropWhile_cons, hp, if_true,
          takeWhile_eq_nil_of_all (fun d => d.timestamp == txid) e.delta
            hforeign,
          dropWhile_eq_self_of_all (fun d => d.timestamp == txid) e.delta
            hforeign,
          List.foldl_cons, List.foldl_nil, undoEdgeDelta]
        rw [setProp_restore e.props k val hwf, ← hD]

/-- Witness for C2 at a concrete vertex, a concrete created vertex, and a
concrete edge property write. -/
theorem abort_undoes_all_writes_witness :
    VertexEquiv
      (AbortVertex 9 (applyWrites 9 ⟨1, false, [3], [], [], [], [⟨7, .recreateObject⟩]⟩
        [.addLabel 4, .setProp 2 (.intv 6), .removeLabel 3]))
      ⟨1, false, [3], [], [], [], [⟨7, .recreateObject⟩]⟩ ∧
    ((AbortVertex 9 (applyWrites 9 (newVertex 5 9) [.addLabel 4])).deleted
        = true ∧
     (AbortVertex 9 (applyWrites 9 (newVertex 5 9) [.addLabel 4])).delta
        = []) ∧
    AbortEdge 9 ⟨5, false, [(1, .intv 3)], [⟨9, .setProperty 1 .nullv⟩]⟩ =
      ⟨5, false, [], []⟩ := by
  refine ⟨?_, ?_, ?_⟩
  · exact abort_undoes_all_writes.1 9
      ⟨1, false, [3], [], [], [], [⟨7, .recreateObject⟩]⟩
      [.addLabel 4, .setProp 2 (.intv 6), .removeLabel 3]
      ⟨by decide, by decide, by decide, trivial⟩
      ⟨List.Pairwise.nil, fun p hp => absurd hp (List.not_mem_nil p)⟩
      (by decide)
  · exact abort_undoes_all_writes.2.1 9 5 [.addLabel 4]
      ⟨by decide, trivial⟩
  · exact abort_undoes_all_writes.2.2 9 ⟨5, false, [], []⟩ 1 (.intv 3)
      true ⟨5, false, [(1, .intv 3)], [⟨9, .setProperty 1 .nullv⟩]⟩
      ⟨List.Pairwise.nil, fun p hp => absurd hp (List.not_mem_nil p)⟩
      (by decide) rfl

theorem updateEqBits_zipWith (t : Properties) (hs : PropsSorted t)
    (k : PropertyId) (v : PropertyValue) (ps : List PropertyId)
    (vals : List PropertyValue) :
    updateEqBits k v ps vals
        (List.zipWith (fun p val => IsPropertyEqual t p val) ps vals) =
      List.zipWith (fun p val => IsPropertyEqual (setProp t k v) p val) ps
        vals := by
  induction ps generalizing vals with
  | nil => cases vals <;> rfl
  | cons p ps ih =>
    cases vals with
    | nil => rfl
    | cons val vals =>
      simp only [List.zipWith_cons_cons, updateEqBits]
      have hhead : (if p = k then decide (v = val)
          else IsPropertyEqual t p val) =
          IsPropertyEqual (setProp t k v) p val := by
        by_cases hpk : p = k
        · subst hpk
          simp only [if_pos rfl, IsPropertyEqual,
            getProp_setProp_self t p v hs]
          rfl
        · simp only [if_neg hpk, IsPropertyEqual,
            getProp_setProp_ne t k p v hpk]
      rw [hhead, ih vals]

theorem specUndo_sorted (t : SpecVertexState) (hs : PropsSorted t.props)
    (a : DeltaAction) : PropsSorted (specUndo t a).props := by
  cases a
  case setProperty k v => exact setProp_sorted t.props k v hs
  all_goals exact hs

theorem step_canonical (label : LabelId) (props : List PropertyId)
    (values : List PropertyValue) (t : SpecVertexState)
    (hs : PropsSorted t.props) (a : DeltaAction) :
    lastCommittedStep label props values
      ⟨t.deleted, decide (label ∈ t.labels),
        List.zipWith (fun p val => IsPropertyEqual t.props p val) props values⟩
      a =
    ⟨(specUndo t a).deleted, decide (label ∈ (specUndo t a).labels),
      List.zipWith (fun p val => IsPropertyEqual (specUndo t a).props p val)
        props values⟩ := by
  cases a with
  | setProperty k v =>
      simp only [lastCommittedStep, specUndo]
      rw [updateEqBits_zipWith t.props hs k v props values]
  | deleteObject => rfl
  | deleteDeserializedObject => rfl
  | recreateObject => rfl
  | addLabel l =>
      by_cases hll : l = label
      · subst hll
        have hdec : decide (l ∈ insert l t.labels) = true :=
          decide_eq_true (Finset.mem_insert_self l t.labels)
        simp [lastCommittedStep, specUndo, hdec]
      · have hdec : decide (label ∈ insert l t.labels) =
            decide (label ∈ t.labels) :=
          decide_eq_decide.mpr
            (Finset.mem_insert.trans (or_iff_right (fun h => hll h.symm)))
        simp only [lastCommittedStep, specUndo, if_neg hll, hdec]
  | removeLabel l =>
      by_cases hll : l = label
      · subst hll
        have hdec : decide (l ∈ t.labels.erase l) = false :=
          decide_eq_false (Finset.not_mem_erase l t.labels)
        simp [lastCommittedStep, specUndo, hdec]
      · have hdec : decide (label ∈ t.labels.erase l) =
            decide (label ∈ t.labels) :=
          decide_eq_decide.mpr
            (Finset.mem_erase.trans (and_iff_right (fun h => hll h.symm)))
        simp only [lastCommittedStep, specUndo, if_neg hll, hdec]
  | addInEdge t1 x e => rfl
  | addOutEdge t1 x e => rfl
  | removeInEdge t1 x e => rfl
  | removeOutEdge t1 x e => rfl

theorem fold_canonical (label : LabelId) (props : List PropertyId)
    (values : List PropertyValue) (ds : List Delta) (t : SpecVertexState)
    (hs : PropsSorted t.props) :
    ds.foldl (fun s d => lastCommittedStep label props values s d.action)
      ⟨t.deleted, decide (label ∈ t.labels),
        List.zipWith (fun p val => IsPropertyEqual t.props p val) props
          values⟩ =
    ⟨(ds.foldl (fun s d => specUndo s d.action) t).deleted,
     decide (label ∈ (ds.foldl (fun s d => specUndo s d.action) t).labels),
     List.zipWith
       (fun p val => IsPropertyEqual
         ((ds.foldl (fun s d => specUndo s d.action) t).props) p val)
       props values⟩ := by
  induction ds generalizing t with
  | nil => rfl
  | cons d ds ih =>
      simp only [List.foldl_cons]
      rw [step_canonical label props values t hs d.action]
      exact ih (specUndo t d.action) (specUndo_sorted t hs d.action)

theorem all_zipWith_iff (tp : Properties) (props : List PropertyId)
    (values : List PropertyValue) :
    ((List.zipWith (fun p val => IsPropertyEqual tp p val) props
        values).all id = true) ↔
      ∀ pv ∈ props.zip values, getProp tp pv.1 = pv.2 := by
  induction props generalizing values with
  | nil => simp
  | cons p ps ih =>
    cases values with
    | nil => simp
    | cons val vals =>
      rw [List.zipWith_cons_cons, List.zip_cons_cons, List.all_cons]
      simp only [id_eq, Bool.and_eq_true]
      rw [ih vals, List.forall_mem_cons]
      have hh : (IsPropertyEqual tp p val = true) ↔ getProp tp p = val := by
        simp [IsPropertyEqual]
      rw [hh]

theorem lastCommitted_correct (v : Vertex) (label : LabelId)
    (props : List PropertyId) (values : List PropertyValue)
    (txid commitTs : Nat) (hs : PropsSorted v.props) :
    (LastCommittedVersionHasLabelProperty v label props values txid commitTs
        = true) ↔
      ((reconstructAsOf v txid commitTs).deleted = false ∧
       label ∈ (reconstructAsOf v txid commitTs).labels ∧
       ∀ pv ∈ props.zip values,
         getProp (reconstructAsOf v txid commitTs).props pv.1 = pv.2) := by
  have hinit : (⟨v.deleted, decide (label ∈ v.labels),
      List.zipWith (fun p val => IsPropertyEqual v.props p val)
        props values⟩ : WalkState) =
      ⟨(⟨v.deleted, v.labels.toFinset, v.props⟩ : SpecVertexState).deleted,
       decide (label ∈
         (⟨v.deleted, v.labels.toFinset, v.props⟩ : SpecVertexState).labels),
       List.zipWith (fun p val => IsPropertyEqual
         (⟨v.deleted, v.labels.toFinset, v.props⟩ :
            SpecVertexState).props p val) props values⟩ := by
    have hld : decide (label ∈ v.labels) =
        decide (label ∈ v.labels.toFinset) :=
      decide_eq_decide.mpr (Iff.symm List.mem_toFinset)
    rw [hld]
  simp only [LastCommittedVersionHasLabelProperty, reconstructAsOf]
  rw [hinit, fold_canonical label props values _ _ hs]
  simp only [Bool.and_eq_true, Bool.not_eq_true', decide_eq_true_eq,
    all_zipWith_iff]
  tauto

theorem findSome?_isSome_iff (f : α → Option β) (l : List α) :
    ((l.findSome? f).isSome = true) ↔ ∃ a ∈ l, (f a).isSome = true := by
  induction l with
  | nil => simp [List.findSome?_nil]
  | cons a l ih =>
    rw [List.findSome?_cons]
    cases hf : f a with
    | some b =>
      simp only [Option.isSome_some, true_iff]
      exact ⟨a, List.mem_cons_self a l, by rw [hf]; rfl⟩
    | none =>
      rw [ih]
      constructor
      · rintro ⟨x, hx, hfx⟩; exact ⟨x, List.mem_cons_of_mem a hx, hfx⟩
      · rintro ⟨x, hx, hfx⟩
        rcases List.mem_cons.mp hx with h | h
        · subst h; rw [hf] at hfx; exact absurd hfx (by simp)
        · exact ⟨x, h, hfx⟩

theorem Validate_isSome_iff (ucs : List UniqueConstraint) (v : Vertex)
    (txid cts : Nat) :
    ((Validate ucs v txid cts).isSome = true) ↔
      (v.deleted = false ∧ ∃ label ∈ v.labels, ∃ c ∈ ucs, c.label = label ∧
        ∃ values, ExtractPropertyValues v.props c.props = some values ∧
          ∃ e ∈ c.entries, e.values = values ∧ e.vertex.gid ≠ v.gid ∧
            LastCommittedVersionHasLabelProperty e.vertex label c.props values
              txid cts = true) := by
  cases hvd : v.deleted with
  | true => simp [Validate, hvd]
  | false =>
    simp only [Validate, hvd, Bool.false_eq_true, if_false]
    rw [findSome?_isSome_iff]
    constructor
    · rintro ⟨label, hlab, hsome⟩
      rw [findSome?_isSome_iff] at hsome
      obtain ⟨c, hcf, hc⟩ := hsome
      obtain ⟨hcmem, hclab⟩ := List.mem_filter.mp hcf
      revert hc
      cases hx : ExtractPropertyValues v.props c.props with
      | none => intro hc; simp at hc
      | some values =>
        intro hc
        have hc2 : (if c.entries.any (fun e =>
            decide (e.values = values) && decide (e.vertex.gid ≠ v.gid) &&
            LastCommittedVersionHasLabelProperty e.vertex label c.props
              values txid cts)
            then some (label, c.props) else none).isSome = true := hc
        cases hany : c.entries.any (fun e =>
            decide (e.values = values) && decide (e.vertex.gid ≠ v.gid) &&
            LastCommittedVersionHasLabelProperty e.vertex label c.props
              values txid cts) with
        | false => rw [hany] at hc2; exact absurd hc2 (by simp)
        | true =>
          obtain ⟨e, he, hep⟩ := List.any_eq_true.mp hany
          rw [Bool.and_eq_true, Bool.and_eq_true] at hep
          obtain ⟨⟨h1, h2⟩, h3⟩ := hep
          exact ⟨trivial, label, hlab, c, hcmem, beq_iff_eq.mp hclab,
            values, hx, e, he, of_decide_eq_true h1, of_decide_eq_true h2,
            h3⟩
    · rintro ⟨-, label, hlab, c, hcmem, hclab, values, hx, e, he, h1, h2, h3⟩
      refine ⟨label, hlab, ?_⟩
      rw [findSome?_isSome_iff]
      refine ⟨c, List.mem_filter.mpr ⟨hcmem, by simp [hclab]⟩, ?_⟩
      rw [hx]
      show (if c.entries.any (fun e =>
          decide (e.values = values) && decide (e.vertex.gid ≠ v.gid) &&
          LastCommittedVersionHasLabelProperty e.vertex label c.props values
            txid cts)
          then some (label, c.props) else none).isSome = true
      have hany : c.entries.any (fun e =>
          decide (e.values = values) && decide (e.vertex.gid ≠ v.gid) &&
          LastCommittedVersionHasLabelProperty e.vertex label c.props values
            txid cts) = true :=
        List.any_eq_true.mpr ⟨e, he, by
          rw [decide_eq_true h1, decide_eq_true h2, h3]; rfl⟩
      rw [hany]
      rfl

/-- C1: with a non-empty delta buffer and no existence violation, `Commit`
returns a unique-constraint violation — and then leaves the store aborted,
its writes invisible — if and only if some modified, non-deleted vertex
carries a constrained label whose constraint storage (after
`UpdateBeforeCommit`) holds an entry of a *different* vertex with the same
extracted property values, whose state reconstructed by walking its delta
chain until a timestamp strictly below the commit timestamp (or equal to
the transaction id) is not deleted, carries the label and still has those
property values. -/
theorem commit_unique_violation_iff (st : MiniStorage) (tx : Txn)
    (hne : (modifiedVertices st tx).isEmpty = false)
    (hex : firstExistenceViolation st.ecs (modifiedVertices st tx) = none)
    (hwf : ∀ c ∈ (modifiedVertices st tx).foldl
        (fun u v => UpdateBeforeCommit u v tx.startTs) st.ucs,
      ∀ e ∈ c.entries, PropsSorted e.vertex.props) :
    ((∃ l ps, (Commit st tx).1 = some (.uniqueViolation l ps)) ↔
      ∃ v ∈ modifiedVertices st tx, v.deleted = false ∧
        ∃ label ∈ v.labels,
          ∃ c ∈ (modifiedVertices st tx).foldl
              (fun u v => UpdateBeforeCommit u v tx.startTs) st.ucs,
            c.label = label ∧
            ∃ values, ExtractPropertyValues v.props c.props = some values ∧
              ∃ e ∈ c.entries, e.values = values ∧ e.vertex.gid ≠ v.gid ∧
                (reconstructAsOf e.vertex tx.id st.timestamp).deleted
                    = false ∧
                label ∈ (reconstructAsOf e.vertex tx.id st.timestamp).labels ∧
                ∀ pv ∈ c.props.zip values,
                  getProp (reconstructAsOf e.vertex tx.id st.timestamp).props
                    pv.1 = pv.2) ∧
    (∀ err, (Commit st tx).1 = some err →
      (Commit st tx).2.vertices = abortStorage tx.id st.vertices) := by
  have hiff : ((firstUniqueViolation
      ((modifiedVertices st tx).foldl
        (fun u v => UpdateBeforeCommit u v tx.startTs) st.ucs)
      (modifiedVertices st tx) tx.id st.timestamp).isSome = true) ↔
      (∃ v ∈ modifiedVertices st tx, v.deleted = false ∧
        ∃ label ∈ v.labels,
          ∃ c ∈ (modifiedVertices st tx).foldl
              (fun u v => UpdateBeforeCommit u v tx.startTs) st.ucs,
            c.label = label ∧
            ∃ values, ExtractPropertyValues v.props c.props = some values ∧
              ∃ e ∈ c.entries, e.values = values ∧ e.vertex.gid ≠ v.gid ∧
                (reconstructAsOf e.vertex tx.id st.timestamp).deleted
                    = false ∧
                label ∈ (reconstructAsOf e.vertex tx.id st.timestamp).labels ∧
                ∀ pv ∈ c.props.zip values,
                  getProp (reconstructAsOf e.vertex tx.id st.timestamp).props
                    pv.1 = pv.2) := by
    rw [firstUniqueViolation, findSome?_isSome_iff]
    constructor
    · rintro ⟨v, hv, hsome⟩
      obtain ⟨hd, label, hlab, c, hcmem, hclab, values, hx, e, he, h1, h2,
        h3⟩ := (Validate_isSome_iff _ v tx.id st.timestamp).mp hsome
      obtain ⟨r1, r2, r3⟩ := (lastCommitted_correct e.vertex label c.props
        values tx.id st.timestamp (hwf c hcmem e he)).mp h3
      exact ⟨v, hv, hd, label, hlab, c, hcmem, hclab, values, hx, e, he,
        h1, h2, r1, r2, r3⟩
    · rintro ⟨v, hv, hd, label, hlab, c, hcmem, hclab, values, hx, e, he,
        h1, h2, r1, r2, r3⟩
      refine ⟨v, hv, (Validate_isSome_iff _ v tx.id st.timestamp).mpr
        ⟨hd, label, hlab, c, hcmem, hclab, values, hx, e, he, h1, h2,
          (lastCommitted_correct e.vertex label c.props values tx.id
            st.timestamp (hwf c hcmem e he)).mpr ⟨r1, r2, r3⟩⟩⟩
  cases hu : firstUniqueViolation
      ((modifiedVertices st tx).foldl
        (fun u v => UpdateBeforeCommit u v tx.startTs) st.ucs)
      (modifiedVertices st tx) tx.id st.timestamp with
  | some lp =>
    obtain ⟨l, ps⟩ := lp
    have hc : Commit st tx =
        (some (.uniqueViolation l ps),
          { st with
            vertices := abortStorage tx.id st.vertices
            ucs := (modifiedVertices st tx).foldl
              (fun u v => UpdateBeforeCommit u v tx.startTs) st.ucs
            timestamp := st.timestamp + 1
            commitLog := tx.startTs :: st.commitLog }) := by
      simp only [Commit, hne, Bool.false_eq_true, if_false, hex, hu]
    refine ⟨?_, ?_⟩
    · constructor
      · intro _
        exact hiff.mp (by rw [hu]; rfl)
      · intro _
        exact ⟨l, ps, by rw [hc]⟩
    · intro err _
      rw [hc]
  | none =>
    have hc : Commit st tx =
        (none,
          { st with
            vertices := publishVertices tx.id st.timestamp st.vertices
            ucs := (modifiedVertices st tx).foldl
              (fun u v => UpdateBeforeCommit u v tx.startTs) st.ucs
            timestamp := st.timestamp + 1
            wal := st.wal ++
              AppendToWalDataManipulation (walObjects st tx) st.timestamp
            commitLog := tx.startTs :: st.commitLog }) := by
      simp only [Commit, hne, Bool.false_eq_true, if_false, hex, hu]
    refine ⟨?_, ?_⟩
    · constructor
      · rintro ⟨l, ps, hl⟩
        rw [hc] at hl
        exact absurd hl (by simp)
      · intro hR
        have := hiff.mpr hR
        rw [hu] at this
        exact absurd this (by simp)
    · intro err herr
      rw [hc] at herr
      exact absurd herr (by simp)

/-- Witness for C1: vertex 1 committed `(label 10, prop 1 = 7)` earlier;
the transaction with id 9 sets the same value on vertex 2; its commit
reports a unique violation, obtained through the claim's equivalence. -/
theorem commit_unique_violation_iff_witness :
    ∃ l ps,
      (Commit
        ⟨[⟨1, false, [10], [(1, .intv 7)], [], [], []⟩,
          ⟨2, false, [10], [(1, .intv 7)], [], [],
            [⟨9, .setProperty 1 .nullv⟩]⟩],
         [⟨10, [1],
           [⟨[.intv 7], ⟨1, false, [10], [(1, .intv 7)], [], [], []⟩, 2⟩]⟩],
         [], 5, [], []⟩
        ⟨9, 3⟩).1 = some (CommitError.uniqueViolation l ps) :=
  ((commit_unique_violation_iff
      ⟨[⟨1, false, [10], [(1, .intv 7)], [], [], []⟩,
        ⟨2, false, [10], [(1, .intv 7)], [], [],
          [⟨9, .setProperty 1 .nullv⟩]⟩],
       [⟨10, [1],
         [⟨[.intv 7], ⟨1, false, [10], [(1, .intv 7)], [], [], []⟩, 2⟩]⟩],
       [], 5, [], []⟩
      ⟨9, 3⟩ (by decide) rfl (by decide)).1).mpr
    ⟨⟨2, false, [10], [(1, .intv 7)], [], [], [⟨9, .setProperty 1 .nullv⟩]⟩,
      by decide, rfl, 10, by decide,
      ⟨10, [1],
        [⟨[.intv 7], ⟨1, false, [10], [(1, .intv 7)], [], [], []⟩, 2⟩,
         ⟨[.intv 7], ⟨2, false, [10], [(1, .intv 7)], [], [],
           [⟨9, .setProperty 1 .nullv⟩]⟩, 3⟩]⟩,
      by decide, rfl, [.intv 7], by decide,
      ⟨[.intv 7], ⟨1, false, [10], [(1, .intv 7)], [], [], []⟩, 2⟩,
      by decide, rfl, by decide, rfl, by decide, by decide⟩

end MemStorage
